import Mathlib

/-!
The `hash:ip,port` set type of DPVS (`src/ipset/ipset_hash_ipport.c`).

A shallow embedding of the IPv4 and IPv6 specialisations of the `hash:ip,port`
ipset type, followed by theorems about range expansion, error propagation, the
element encoding, the dataplane test, set creation, hashing and comments.

Conventions of the embedding:

* machine integers are `Nat`; every place where C arithmetic can wrap
  (`port++` on a `uint16_t`, `ip++` on a `uint32_t`) reduces `% 2 ^ w`;
* the host is little-endian (the x86-64 / arm64 targets of DPDK), so the
  byte-order conversions are byte swaps;
* the storage engine's per-element handler `set->type->adtfn[opcode]` is a
  state-passing function on an arbitrary table type `σ`: it receives the
  table, the element and the flag word, and yields the new table and an
  `int` result;
* a C loop is a function that takes an iteration budget; when the budget is
  used up while the loop is still running the outcome is `Flow.spin` and the
  table reached so far is kept;
* a read through a null pointer has no defined result: the dataplane test
  yields `none` there;
* the layout of the element records follows the C rule that places every
  member at the next multiple of its alignment.
-/

namespace Ipset

/-! ## Constants of headers that the translation unit includes -/

/-- Modelled from the spec: the result code "success". The header that defines
`EDPVS_OK` is not part of the translation unit; its value is the one the
source tests with `if (ret)`. -/
def EDPVS_OK : Int := 0

/-- Modelled from the spec: the result code `InvalidArgument`. The header that
defines `EDPVS_INVAL` is not part of the translation unit. -/
def EDPVS_INVAL : Int := -1

/-- Address family number of IPv4 (`AF_INET`). -/
def AF_INET : Nat := 2

/-- Address family number of IPv6 (`AF_INET6`). -/
def AF_INET6 : Nat := 10

/-- Modelled from the spec: the opcode enumeration "ADD, DEL, TEST" that
indexes `set->type->adtfn`. -/
inductive ipset_op where
  | IPSET_OP_ADD
  | IPSET_OP_DEL
  | IPSET_OP_TEST
  deriving DecidableEq, Repr

open ipset_op

/-! ## Byte order -/

/-- Swap the two bytes of a 16-bit value. -/
def bswap16 (x : Nat) : Nat := (x % 256) * 256 + (x / 256) % 256

/-- Reverse the four bytes of a 32-bit value. -/
def bswap32 (x : Nat) : Nat :=
  (x % 256) * 16777216 + ((x / 256) % 256) * 65536 + ((x / 65536) % 256) * 256
    + (x / 16777216) % 256

/-- Host to network order, 16 bit, on a little-endian host. -/
def htons (x : Nat) : Nat := bswap16 x

/-- Network to host order, 16 bit, on a little-endian host. -/
def ntohs (x : Nat) : Nat := bswap16 x

/-- Host to network order, 32 bit, on a little-endian host. -/
def htonl (x : Nat) : Nat := bswap32 x

/-- Network to host order, 32 bit, on a little-endian host. -/
def ntohl (x : Nat) : Nat := bswap32 x

/-! ## Strings and memory -/

/-- Length of the NUL-terminated string held in a byte array. -/
def strlen (src : List Nat) : Nat := (src.takeWhile (fun c => c != 0)).length

/-- The DPDK `rte_strlcpy(dst, src, size)`: copy at most `size - 1` bytes of the
string `src` into `dst` and terminate it with a NUL; the bytes of `dst` after
the terminator are left as they were. -/
def rte_strlcpy (dst src : List Nat) (size : Nat) : List Nat :=
  if size = 0 then dst
  else
    let n := min (strlen src) (size - 1)
    src.take n ++ 0 :: dst.drop (n + 1)

/-- The libc `memcmp(a, b, n)`: zero when the first `n` bytes agree, otherwise
the difference of the first pair of bytes that differ. -/
def memcmp : List Nat → List Nat → Nat → Int
  | _, _, 0 => 0
  | a :: as, b :: bs, n + 1 => if a = b then memcmp as bs n else (a : Int) - (b : Int)
  | _, _, _ + 1 => 0

/-! ## Data model -/

/-- The `union inet_addr`, one field per view. The IPv4 code reads and writes
only `in.s_addr`, the IPv6 code only `in6`, so the overlap of the two views in
memory is not represented. -/
structure inet_addr where
  /-- The view `in.s_addr`: a 32-bit address in network byte order. -/
  in_s_addr : Nat
  /-- The view `in6`: the 16 bytes `s6_addr`. -/
  in6 : List Nat
  deriving DecidableEq, Repr

/-- The fields of `struct ipset_param` that the set type reads. -/
structure ipset_param where
  /-- The field `option.family`. -/
  family : Nat
  /-- The field `range.min_addr`. -/
  min_addr : inet_addr
  /-- The field `range.max_addr`. -/
  max_addr : inet_addr
  /-- The field `range.min_port`, host order, 16 bit. -/
  min_port : Nat
  /-- The field `range.max_port`, host order, 16 bit. -/
  max_port : Nat
  /-- Prefix length, `0` when no CIDR was given. -/
  cidr : Nat
  /-- Protocol number, 8 bit. -/
  proto : Nat
  /-- Flag word handed to the per-element handler. -/
  flag : Nat
  /-- Comment text, a byte array of `IPSET_MAXCOMLEN` bytes. -/
  comment : List Nat
  deriving DecidableEq, Repr

/-- The IPv4 element record `elem4_t`. -/
structure elem4_t where
  /-- Address, network byte order. -/
  ip : Nat
  /-- Port, network byte order. -/
  port : Nat
  /-- Protocol number. -/
  proto : Nat
  /-- Comment text, `IPSET_MAXCOMLEN` bytes. -/
  comment : List Nat
  deriving DecidableEq, Repr

/-- The IPv6 element record `elem6_t`. -/
structure elem6_t where
  /-- Address, the 16 bytes `s6_addr`. -/
  ip : List Nat
  /-- Port, network byte order. -/
  port : Nat
  /-- Protocol number. -/
  proto : Nat
  /-- Comment text, `IPSET_MAXCOMLEN` bytes. -/
  comment : List Nat
  deriving DecidableEq, Repr

/-- The fields of `struct ipset_member` written by the listing functions. -/
structure ipset_member where
  /-- Address, family-correct view of the union. -/
  addr : inet_addr
  /-- Port, host byte order. -/
  port : Nat
  /-- Protocol number. -/
  proto : Nat
  /-- Comment text. -/
  comment : List Nat
  deriving DecidableEq, Repr

/-- The per-element handler type `ipset_adtfn`: table, element and flag word in,
new table and `int` result out. -/
abbrev ipset_adtfn (σ ε : Type) : Type := σ → ε → Nat → σ × Int

/-- The fields of `struct ipset` that the set type reads, over a table type `σ`
and an element type `ε`. -/
structure ipset (σ ε : Type) where
  /-- Address family of the set. -/
  family : Nat
  /-- Whether the set stores comments. -/
  comment : Bool
  /-- The dispatch table `type->adtfn`. -/
  adtfn : ipset_op → ipset_adtfn σ ε
  /-- The hash table the handlers work on. -/
  table : σ

/-- How a loop was left. -/
inductive Flow where
  /-- The loop condition became false. -/
  | next
  /-- The body executed `return r`. -/
  | ret (r : Int)
  /-- The iteration budget ran out with the loop still running. -/
  | spin
  deriving DecidableEq, Repr

/-! ## Element-type contract, IPv4 -/

/-- Source lines 29-36. -/
def hash_ipport_data_equal4 (e1 e2 : elem4_t) : Bool :=
  e1.ip == e2.ip && e1.port == e2.port && e1.proto == e2.proto

/-- Source lines 38-48. -/
def hash_ipport_do_list4 (IPSET_MAXCOMLEN : Nat) (member : ipset_member) (e : elem4_t)
    (comment : Bool) : ipset_member :=
  let member := { member with port := ntohs e.port }
  let member := { member with proto := e.proto }
  let member := { member with addr := { member.addr with in_s_addr := e.ip } }
  if comment then
    { member with comment := rte_strlcpy member.comment e.comment IPSET_MAXCOMLEN }
  else member

/-- Source lines 50-56; the sum is formed in 32-bit unsigned arithmetic. -/
def hash_ipport_hashkey4 (e : elem4_t) (_len : Int) (mask : Nat) : Nat :=
  ((e.ip * 31 + e.port * 31 + e.proto) % 2 ^ 32) &&& mask

/-! ## Range expansion, IPv4 -/

/-- Modelled from the spec: the macro `ip_set_mask_from_to(from, to, cidr)` of
`ipset/pfxlen.h`, which is not part of the translation unit: "given a prefix
length L, lower = address with bits beyond L cleared, upper = address with bits
beyond L set". The result is the pair `(from, to)` after the macro. -/
def ip_set_mask_from_to (ip cidr : Nat) : Nat × Nat :=
  let lower := ip - ip % 2 ^ (32 - cidr)
  (lower, lower + (2 ^ (32 - cidr) - 1))

/-- The port loop of source lines 92-98 (and 188-194), for the element `e` whose
port field is set by `setport`:
`for (port = min_port; port >= min_port && port <= max_port; port++)`.
The first argument is the iteration budget, the second the current `port`. -/
def port_loop {σ ε : Type} (adtfn : ipset_adtfn σ ε) (setport : ε → Nat → ε)
    (min_port max_port flag : Nat) (e : ε) : Nat → Nat → σ → Flow × σ
  | 0, _, s => (Flow.spin, s)
  | fuel + 1, port, s =>
    if min_port ≤ port ∧ port ≤ max_port then
      let r := adtfn s (setport e (htons port)) flag
      if r.2 ≠ 0 then (Flow.ret r.2, r.1)
      else port_loop adtfn setport min_port max_port flag e fuel ((port + 1) % 65536) r.1
    else (Flow.next, s)

/-- The address loop of source lines 89-99: `for (; ip <= ip_to; ip++)`. The
budget `fuel` bounds the iterations of this loop and of each run of the port
loop inside it. -/
def ip_loop4 {σ : Type} (adtfn : ipset_adtfn σ elem4_t) (param : ipset_param)
    (ip_to : Nat) (e : elem4_t) (fuel : Nat) : Nat → Nat → σ → Flow × σ
  | 0, _, s => (Flow.spin, s)
  | n + 1, ip, s =>
    if ip ≤ ip_to then
      let e := { e with ip := htonl ip }
      let e := { e with proto := param.proto }
      match port_loop adtfn (fun (x : elem4_t) p => { x with port := p })
          param.min_port param.max_port param.flag e fuel param.min_port s with
      | (Flow.ret r, s1) => (Flow.ret r, s1)
      | (Flow.spin, s1) => (Flow.spin, s1)
      | (Flow.next, s1) => ip_loop4 adtfn param ip_to e fuel n ((ip + 1) % 4294967296) s1
    else (Flow.next, s)

/-- Source lines 58-101. The result is the returned `int` (`none` when the
function is still running after `fuel` iterations of a loop) and the table. -/
def hash_ipport_adt4 {σ : Type} (IPSET_MAXCOMLEN fuel : Nat) (opcode : ipset_op)
    (set : ipset σ elem4_t) (param : ipset_param) : Option Int × σ :=
  let adtfn := set.adtfn opcode
  if set.family ≠ param.family then (some EDPVS_INVAL, set.table)
  else
    let e : elem4_t := ⟨0, 0, 0, List.replicate IPSET_MAXCOMLEN 0⟩
    if opcode = IPSET_OP_TEST then
      let e := { e with ip := param.min_addr.in_s_addr }
      let e := { e with proto := param.proto }
      let e := { e with port := htons param.min_port }
      let r := adtfn set.table e 0
      (some r.2, r.1)
    else
      let e :=
        if set.comment = true ∧ opcode = IPSET_OP_ADD then
          { e with comment := rte_strlcpy e.comment param.comment IPSET_MAXCOMLEN }
        else e
      let ip := ntohl param.min_addr.in_s_addr
      let range :=
        if param.cidr ≠ 0 then ip_set_mask_from_to ip param.cidr
        else (ip, ntohl param.max_addr.in_s_addr)
      match ip_loop4 adtfn param range.2 e fuel fuel range.1 set.table with
      | (Flow.ret r, s) => (some r, s)
      | (Flow.next, s) => (some EDPVS_OK, s)
      | (Flow.spin, s) => (none, s)

/-! ## Element-type contract and port expansion, IPv6 -/

/-- Source lines 142-150. -/
def hash_ipport_data_equal6 (e1 e2 : elem6_t) : Bool :=
  memcmp e1.ip e2.ip 16 == 0 && e1.port == e2.port && e1.proto == e2.proto

/-- Source lines 152-162. -/
def hash_ipport_do_list6 (IPSET_MAXCOMLEN : Nat) (member : ipset_member) (e : elem6_t)
    (comment : Bool) : ipset_member :=
  let member := { member with port := ntohs e.port }
  let member := { member with proto := e.proto }
  let member := { member with addr := { member.addr with in6 := e.ip } }
  if comment then
    { member with comment := rte_strlcpy member.comment e.comment IPSET_MAXCOMLEN }
  else member

/-- Source lines 164-197. -/
def hash_ipport_adt6 {σ : Type} (IPSET_MAXCOMLEN fuel : Nat) (opcode : ipset_op)
    (set : ipset σ elem6_t) (param : ipset_param) : Option Int × σ :=
  let adtfn := set.adtfn opcode
  if set.family ≠ param.family then (some EDPVS_INVAL, set.table)
  else
    let e : elem6_t := ⟨List.replicate 16 0, 0, 0, List.replicate IPSET_MAXCOMLEN 0⟩
    let e := { e with ip := param.min_addr.in6 }
    let e := { e with proto := param.proto }
    if opcode = IPSET_OP_TEST then
      let e := { e with port := htons param.min_port }
      let r := adtfn set.table e 0
      (some r.2, r.1)
    else
      let e :=
        if set.comment = true ∧ opcode = IPSET_OP_ADD then
          { e with comment := rte_strlcpy e.comment param.comment IPSET_MAXCOMLEN }
        else e
      match port_loop adtfn (fun (x : elem6_t) p => { x with port := p })
          param.min_port param.max_port param.flag e fuel param.min_port set.table with
      | (Flow.ret r, s) => (some r, s)
      | (Flow.next, s) => (some EDPVS_OK, s)
      | (Flow.spin, s) => (none, s)

/-! ## Reference semantics and instrumentation used by the theorems -/

/-- Sequencing of loop outcomes: continue with `k` only after a normal exit. -/
def Flow.andThen {σ : Type} (r : Flow × σ) (k : σ → Flow × σ) : Flow × σ :=
  match r with
  | (Flow.next, s) => k s
  | (Flow.ret c, s) => (Flow.ret c, s)
  | (Flow.spin, s) => (Flow.spin, s)

/-- Apply the elements of a list in order, stopping at the first nonzero result. -/
def applyAll {σ ε : Type} (adtfn : ipset_adtfn σ ε) (flag : Nat) : List ε → σ → Flow × σ
  | [], s => (Flow.next, s)
  | x :: xs, s =>
    if (adtfn s x flag).2 ≠ 0 then (Flow.ret (adtfn s x flag).2, (adtfn s x flag).1)
    else applyAll adtfn flag xs (adtfn s x flag).1

/-- The elements one run of the port loop applies. -/
def port_elems {ε : Type} (setport : ε → Nat → ε) (min_port max_port : Nat) (e : ε) : List ε :=
  (List.range' min_port (max_port + 1 - min_port)).map fun p => setport e (htons p)

/-- The elements the address loop applies for the addresses `lo, lo + 1, ...` (`n` of
them): address-major, ports ascending. -/
def expansion4 (comment : List Nat) (param : ipset_param) (lo n : Nat) : List elem4_t :=
  (List.range' lo n).flatMap fun a =>
    (List.range' param.min_port (param.max_port + 1 - param.min_port)).map fun p =>
      ({ ip := htonl a, port := htons p, proto := param.proto, comment := comment } : elem4_t)

/-- The value a C function hands back after its last loop was left as `r`. -/
def finish {σ : Type} (r : Flow × σ) : Option Int × σ :=
  match r with
  | (Flow.ret c, s) => (some c, s)
  | (Flow.next, s) => (some EDPVS_OK, s)
  | (Flow.spin, s) => (none, s)

/-- The host-order bounds `(ip, ip_to)` computed by source lines 83-88. -/
def addr_range4 (param : ipset_param) : Nat × Nat :=
  if param.cidr ≠ 0 then ip_set_mask_from_to (ntohl param.min_addr.in_s_addr) param.cidr
  else (ntohl param.min_addr.in_s_addr, ntohl param.max_addr.in_s_addr)

/-- The comment field of the element after source lines 70 and 80-81. -/
def elem_comment (IPSET_MAXCOMLEN : Nat) (enabled : Bool) (opcode : ipset_op)
    (param : ipset_param) : List Nat :=
  if enabled = true ∧ opcode = IPSET_OP_ADD then
    rte_strlcpy (List.replicate IPSET_MAXCOMLEN 0) param.comment IPSET_MAXCOMLEN
  else List.replicate IPSET_MAXCOMLEN 0

/-- Instrument a handler: every call is appended to a log kept next to the table. -/
def logged {σ ε : Type} (f : ipset_adtfn σ ε) : ipset_adtfn (σ × List (ε × Nat)) ε :=
  fun st e flag => (((f st.1 e flag).1, st.2 ++ [(e, flag)]), (f st.1 e flag).2)

/-- The set with every handler instrumented and an empty call log. -/
def ipset.logged {σ ε : Type} (set : ipset σ ε) : ipset (σ × List (ε × Nat)) ε :=
  { family := set.family, comment := set.comment,
    adtfn := fun op => Ipset.logged (set.adtfn op), table := (set.table, []) }

/-- A table-free handler that accepts every element. -/
def accept {ε : Type} : ipset_adtfn Unit ε := fun s _ _ => (s, 0)

/-- An IPv4 set of family `AF_INET` without comments whose handlers accept everything. -/
def set4_accept : ipset Unit elem4_t :=
  { family := AF_INET, comment := false, adtfn := fun _ => accept, table := () }

/-- An IPv6 set of family `AF_INET6` without comments whose handlers accept everything. -/
def set6_accept : ipset Unit elem6_t :=
  { family := AF_INET6, comment := false, adtfn := fun _ => accept, table := () }

/-- An IPv4 range parameter: host-order addresses `lo .. hi`, ports `p0 .. p1`, prefix
length `cidr`, protocol 6 (TCP), flag word 0, empty comment. -/
def param4 (lo hi p0 p1 cidr : Nat) : ipset_param :=
  { family := AF_INET, min_addr := ⟨htonl lo, []⟩, max_addr := ⟨htonl hi, []⟩,
    min_port := p0, max_port := p1, cidr := cidr, proto := 6, flag := 0, comment := [] }

/-- An IPv6 port-range parameter: address `::1`, ports `p0 .. p1`, protocol 6, flag word 0,
empty comment. -/
def param6 (p0 p1 : Nat) : ipset_param :=
  { family := AF_INET6,
    min_addr := ⟨0, [0, 0, 0, 0, 0, 0, 0, 0, 0, 0, 0, 0, 0, 0, 0, 1]⟩,
    max_addr := ⟨0, [0, 0, 0, 0, 0, 0, 0, 0, 0, 0, 0, 0, 0, 0, 0, 1]⟩,
    min_port := p0, max_port := p1, cidr := 0, proto := 6, flag := 0, comment := [] }

/-! ## Dataplane test and set creation -/

/-- The fields of `struct dp_vs_iphdr` read by the dataplane test. -/
structure dp_vs_iphdr where
  /-- Offset of the L4 header in the packet. -/
  len : Nat
  /-- Protocol number of the packet. -/
  proto : Nat
  /-- Source address. -/
  saddr : inet_addr
  /-- Destination address. -/
  daddr : inet_addr
  deriving DecidableEq, Repr

/-- The fields of `struct ipset_test_param` read by the dataplane test; the packet buffer
`mbuf` is the list of its bytes. -/
structure ipset_test_param where
  /-- Direction flag: 1 selects the source side, anything else the destination side. -/
  direction : Nat
  /-- The parsed IP header. -/
  iph : dp_vs_iphdr
  /-- The bytes of the packet. -/
  mbuf : List Nat
  deriving DecidableEq, Repr

/-- Modelled from the spec: `mbuf_header_pointer(mbuf, offset, len, buffer)`, declared in a
header that is not part of the translation unit: "a means to read two 16-bit port fields
at that offset", which yields no pointer for a short packet. The result is the `len` bytes
at `offset`, or `none` for the null pointer. -/
def mbuf_header_pointer (mbuf : List Nat) (offset len : Nat) : Option (List Nat) :=
  if offset + len ≤ mbuf.length then some ((mbuf.drop offset).take len) else none

/-- The value of `ports[i]` for a `uint16_t *ports` that points at `bytes`, on a
little-endian host. -/
def load_u16 (bytes : List Nat) (i : Nat) : Nat :=
  bytes.getD (2 * i) 0 + 256 * bytes.getD (2 * i + 1) 0

/-- Source lines 103-124. The result is the new table and the returned `int`; `none`
stands for the read through a null `ports` pointer, whose behaviour is undefined. -/
def hash_ipport_test4 {σ : Type} (IPSET_MAXCOMLEN : Nat) (set : ipset σ elem4_t)
    (p : ipset_test_param) : Option (σ × Int) :=
  let iph := p.iph
  let e : elem4_t := ⟨0, 0, 0, List.replicate IPSET_MAXCOMLEN 0⟩
  let ports := mbuf_header_pointer p.mbuf iph.len 4
  let e := { e with proto := iph.proto }
  if p.direction = 1 then
    let e := { e with ip := iph.saddr.in_s_addr }
    match ports with
    | none => none
    | some bytes =>
      let e := { e with port := load_u16 bytes 0 }
      some (set.adtfn IPSET_OP_TEST set.table e 0)
  else
    let e := { e with ip := iph.daddr.in_s_addr }
    match ports with
    | none => none
    | some bytes =>
      let e := { e with port := load_u16 bytes 1 }
      some (set.adtfn IPSET_OP_TEST set.table e 0)

/-- Source lines 199-220; `none` as for `hash_ipport_test4`. -/
def hash_ipport_test6 {σ : Type} (IPSET_MAXCOMLEN : Nat) (set : ipset σ elem6_t)
    (p : ipset_test_param) : Option (σ × Int) :=
  let iph := p.iph
  let e : elem6_t := ⟨List.replicate 16 0, 0, 0, List.replicate IPSET_MAXCOMLEN 0⟩
  let ports := mbuf_header_pointer p.mbuf iph.len 4
  let e := { e with proto := iph.proto }
  if p.direction = 1 then
    let e := { e with ip := iph.saddr.in6 }
    match ports with
    | none => none
    | some bytes =>
      let e := { e with port := load_u16 bytes 0 }
      some (set.adtfn IPSET_OP_TEST set.table e 0)
  else
    let e := { e with ip := iph.daddr.in6 }
    match ports with
    | none => none
    | some bytes =>
      let e := { e with port := load_u16 bytes 1 }
      some (set.adtfn IPSET_OP_TEST set.table e 0)

/-- A member of a C struct: its size and its alignment in bytes. -/
structure c_member where
  /-- The value of `sizeof` for the member. -/
  size : Nat
  /-- The alignment of the member. -/
  align : Nat
  deriving DecidableEq, Repr

/-- Round `n` up to a multiple of `a`. -/
def align_up (n a : Nat) : Nat := (n + a - 1) / a * a

/-- The offsets the C ABI gives to the members of a struct, in declaration order: every
member is placed at the next multiple of its alignment. The first argument is the end of
the members placed so far. -/
def c_offsets : Nat → List c_member → List Nat
  | _, [] => []
  | cur, m :: ms => align_up cur m.align :: c_offsets (align_up cur m.align + m.size) ms

/-- The end of the last member of a struct. -/
def c_end : Nat → List c_member → Nat
  | cur, [] => cur
  | cur, m :: ms => c_end (align_up cur m.align + m.size) ms

/-- The value of `sizeof` for a struct: the end of the last member rounded up to the
largest member alignment. -/
def c_sizeof (ms : List c_member) : Nat :=
  align_up (c_end 0 ms) ((ms.map fun m => m.align).foldl max 1)

/-- The members of `elem4_t` (source lines 21-27): `uint32_t ip`, `uint16_t port`,
`uint8_t proto`, `char comment[IPSET_MAXCOMLEN]`. -/
def elem4_members (IPSET_MAXCOMLEN : Nat) : List c_member :=
  [⟨4, 4⟩, ⟨2, 2⟩, ⟨1, 1⟩, ⟨IPSET_MAXCOMLEN, 1⟩]

/-- The members of `elem6_t` (source lines 134-140): `struct in6_addr ip` (16 bytes, aligned
as its 32-bit view), `uint16_t port`, `uint8_t proto`, `char comment[IPSET_MAXCOMLEN]`. -/
def elem6_members (IPSET_MAXCOMLEN : Nat) : List c_member :=
  [⟨16, 4⟩, ⟨2, 2⟩, ⟨1, 1⟩, ⟨IPSET_MAXCOMLEN, 1⟩]

/-- The bytes of a `w`-byte unsigned integer in memory on a little-endian host. -/
def le_bytes : Nat → Nat → List Nat
  | 0, _ => []
  | w + 1, x => x % 256 :: le_bytes w (x / 256)

/-- The first `n` bytes of a byte array of `n` bytes whose known content is `l`. -/
def c_array (n : Nat) (l : List Nat) : List Nat := (l ++ List.replicate n 0).take n

/-- The memory image of an `elem4_t`: the members at the offsets of `elem4_members`, which
leave no gap, followed by the tail padding. -/
def elem4_image (IPSET_MAXCOMLEN : Nat) (e : elem4_t) : List Nat :=
  c_array (c_sizeof (elem4_members IPSET_MAXCOMLEN))
    (le_bytes 4 e.ip ++ le_bytes 2 e.port ++ le_bytes 1 e.proto
      ++ c_array IPSET_MAXCOMLEN e.comment)

/-- The memory image of an `elem6_t`. -/
def elem6_image (IPSET_MAXCOMLEN : Nat) (e : elem6_t) : List Nat :=
  c_array (c_sizeof (elem6_members IPSET_MAXCOMLEN))
    (c_array 16 e.ip ++ le_bytes 2 e.port ++ le_bytes 1 e.proto
      ++ c_array IPSET_MAXCOMLEN e.comment)

/-- The two family specialisations `hash_ipport_variant4` and `hash_ipport_variant6`
(source lines 126-132 and 222-228). -/
inductive ipset_type_variant where
  | hash_ipport_variant4
  | hash_ipport_variant6
  deriving DecidableEq, Repr

/-- The fields of `struct ipset` that `hash_ipport_create` writes, with the table that
`hash_create` has set up. -/
structure ipset_binding (σ : Type) where
  /-- Size of an element record. -/
  dsize : Nat
  /-- Length of the hashed leading part of an element record. -/
  hash_len : Nat
  /-- The bound family specialisation. -/
  variant : ipset_type_variant
  /-- The table as `hash_create` left it. -/
  table : σ

/-- Source lines 230-246. The storage engine's `hash_create` is not part of the
translation unit and is a parameter: it receives the table and the parameter and yields
the new table and its `int` result. The result is the returned `int` and the fields
written. -/
def hash_ipport_create {σ : Type} (IPSET_MAXCOMLEN : Nat)
    (hash_create : σ → ipset_param → σ × Int) (table : σ) (param : ipset_param) :
    Int × ipset_binding σ :=
  let created := hash_create table param
  if param.family = AF_INET then
    (EDPVS_OK,
      { dsize := c_sizeof (elem4_members IPSET_MAXCOMLEN),
        hash_len := (c_offsets 0 (elem4_members IPSET_MAXCOMLEN)).getD 3 0,
        variant := ipset_type_variant.hash_ipport_variant4,
        table := created.1 })
  else
    (EDPVS_OK,
      { dsize := c_sizeof (elem6_members IPSET_MAXCOMLEN),
        hash_len := (c_offsets 0 (elem6_members IPSET_MAXCOMLEN)).getD 3 0,
        variant := ipset_type_variant.hash_ipport_variant6,
        table := created.1 })

/-- Instrument the dispatch table: every call is appended, with its opcode, to a log kept
next to the table. -/
def ipset.traced {σ ε : Type} (set : ipset σ ε) : ipset (σ × List (ipset_op × ε × Nat)) ε :=
  { family := set.family, comment := set.comment,
    adtfn := fun op st e flag =>
      (((set.adtfn op st.1 e flag).1, st.2 ++ [(op, e, flag)]), (set.adtfn op st.1 e flag).2),
    table := (set.table, []) }

/-- A handler for `elem4_t` whose behaviour is a function `h` of the table, the port, the
protocol and the flag word only. -/
def by_port4 {σ : Type} (h : σ → Nat → Nat → Nat → σ × Int) : ipset_adtfn σ elem4_t :=
  fun s e flag => h s e.port e.proto flag

/-- A handler for `elem6_t` whose behaviour is a function `h` of the table, the port, the
protocol and the flag word only. -/
def by_port6 {σ : Type} (h : σ → Nat → Nat → Nat → σ × Int) : ipset_adtfn σ elem6_t :=
  fun s e flag => h s e.port e.proto flag

/-- A port-keyed behaviour that counts the calls, logs the `(port, proto, flag)` triple of
each, and answers with `g port index`. -/
def counting (g : Nat → Nat → Int) :
    (Nat × List (Nat × Nat × Nat)) → Nat → Nat → Nat → (Nat × List (Nat × Nat × Nat)) × Int :=
  fun st port proto flag => ((st.1 + 1, st.2 ++ [(port, proto, flag)]), g port st.1)

/-! ## Further instrumentation used by the theorems -/

/-- The set as it is without comments: comments are disabled, and every handler is shown
the element after `att` (which puts back the comment the original handler would see). -/
def ipset.uncommented {σ ε : Type} (set : ipset σ ε) (att : ε → ε) : ipset σ ε :=
  { family := set.family, comment := false,
    adtfn := fun op s x flag => set.adtfn op s (att x) flag, table := set.table }

/-- Apply `att` to every element of the call log of a result. -/
def map_log {σ ε ρ : Type} (att : ε → ε) (r : ρ × σ × List (ε × Nat)) :
    ρ × σ × List (ε × Nat) :=
  (r.1, r.2.1, r.2.2.map fun c => (att c.1, c.2))

/-- The IPv4 element `x` with the comment field `c`. -/
def attach4 (c : List Nat) (x : elem4_t) : elem4_t := { x with comment := c }

/-- The IPv6 element `x` with the comment field `c`. -/
def attach6 (c : List Nat) (x : elem6_t) : elem6_t := { x with comment := c }

/-- An IPv4 set of family `AF_INET` without comments whose handlers count the calls, log
the `(port, proto, flag)` of each and answer with `g port index`. -/
def set4_counting (g : Nat → Nat → Int) : ipset (Nat × List (Nat × Nat × Nat)) elem4_t :=
  { family := AF_INET, comment := false, adtfn := fun _ => by_port4 (counting g),
    table := (0, []) }

/-- An IPv6 set of family `AF_INET6` without comments whose handlers count the calls, log
the `(port, proto, flag)` of each and answer with `g port index`. -/
def set6_counting (g : Nat → Nat → Int) : ipset (Nat × List (Nat × Nat × Nat)) elem6_t :=
  { family := AF_INET6, comment := false, adtfn := fun _ => by_port6 (counting g),
    table := (0, []) }

/-- The comment field as the specification words it: for ADD on a set with comments, the
text of `src` (the bytes before its first NUL) cut to at most `IPSET_MAXCOMLEN - 1` bytes,
followed by the NUL terminator and zeros up to `IPSET_MAXCOMLEN` bytes; all zeros for every
other opcode and for a set without comments. -/
def expected_comment (IPSET_MAXCOMLEN : Nat) (enabled : Bool) (opcode : ipset_op)
    (src : List Nat) : List Nat :=
  if enabled = true ∧ opcode = IPSET_OP_ADD then
    ((src.takeWhile fun c => c != 0).take (IPSET_MAXCOMLEN - 1))
      ++ List.replicate
          (IPSET_MAXCOMLEN - ((src.takeWhile fun c => c != 0).take (IPSET_MAXCOMLEN - 1)).length)
          0
  else List.replicate IPSET_MAXCOMLEN 0

/-- An IPv4 set of family `AF_INET` with comments enabled whose handlers accept
everything. -/
def set4_commented : ipset Unit elem4_t :=
  { family := AF_INET, comment := true, adtfn := fun _ => accept, table := () }

/-- The parameter `param` with the comment text `text`. -/
def with_comment (param : ipset_param) (text : List Nat) : ipset_param :=
  { param with comment := text }

/-! ## Theorems -/

theorem bswap16_lt (x : Nat) : bswap16 x < 65536 := by
  unfold bswap16; omega

theorem bswap16_bswap16 (x : Nat) (h : x < 65536) : bswap16 (bswap16 x) = x := by
  unfold bswap16
  have h1 : x / 256 % 256 = x / 256 := Nat.mod_eq_of_lt (by omega)
  rw [h1]
  have h2 : (x % 256 * 256 + x / 256) % 256 = x / 256 := by omega
  have h3 : (x % 256 * 256 + x / 256) / 256 = x % 256 := by omega
  rw [h2, h3]
  omega

theorem bswap32_lt (x : Nat) : bswap32 x < 4294967296 := by
  unfold bswap32; omega

theorem bswap32_bytes (a b c d : Nat) (ha : a < 256) (hb : b < 256) (hc : c < 256)
    (hd : d < 256) :
    bswap32 (a * 16777216 + b * 65536 + c * 256 + d)
      = d * 16777216 + c * 65536 + b * 256 + a := by
  unfold bswap32
  have h1 : (a * 16777216 + b * 65536 + c * 256 + d) % 256 = d := by omega
  have h2 : (a * 16777216 + b * 65536 + c * 256 + d) / 256 = a * 65536 + b * 256 + c := by
    omega
  have h3 : (a * 16777216 + b * 65536 + c * 256 + d) / 65536 = a * 256 + b := by omega
  have h4 : (a * 16777216 + b * 65536 + c * 256 + d) / 16777216 = a := by omega
  rw [h1, h2, h3, h4]
  have h5 : (a * 65536 + b * 256 + c) % 256 = c := by omega
  have h6 : (a * 256 + b) % 256 = b := by omega
  have h7 : a % 256 = a := by omega
  rw [h5, h6, h7]

theorem bswap32_bswap32 (x : Nat) (h : x < 4294967296) : bswap32 (bswap32 x) = x := by
  have hx : bswap32 x = (x % 256) * 16777216 + ((x / 256) % 256) * 65536
      + ((x / 65536) % 256) * 256 + (x / 16777216) % 256 := rfl
  rw [hx, bswap32_bytes _ _ _ _ (Nat.mod_lt _ (by decide)) (Nat.mod_lt _ (by decide))
    (Nat.mod_lt _ (by decide)) (Nat.mod_lt _ (by decide))]
  have e1 : x / 256 / 256 = x / 65536 := by rw [Nat.div_div_eq_div_mul]
  have e2 : x / 65536 / 256 = x / 16777216 := by rw [Nat.div_div_eq_div_mul]
  omega

theorem applyAll_append {σ ε : Type} (adtfn : ipset_adtfn σ ε) (flag : Nat) (l1 l2 : List ε) (s : σ) :
    applyAll adtfn flag (l1 ++ l2) s
      = Flow.andThen (applyAll adtfn flag l1 s) (applyAll adtfn flag l2) := by
  induction l1 generalizing s with
  | nil => simp [applyAll, Flow.andThen]
  | cons x xs ih =>
    simp only [List.cons_append, applyAll]
    split
    · simp [Flow.andThen]
    · exact ih _

theorem port_loop_run {σ ε : Type} (adtfn : ipset_adtfn σ ε) (setport : ε → Nat → ε)
    (min_port max_port flag : Nat) (e : ε) (hmax : max_port ≤ 65535) (m : Nat) :
    ∀ (n port : Nat) (s : σ), min_port ≤ port → port ≤ 65535 → port + n ≤ max_port + 1 →
      port_loop adtfn setport min_port max_port flag e (m + n) port s
        = Flow.andThen
            (applyAll adtfn flag ((List.range' port n).map fun p => setport e (htons p)) s)
            (port_loop adtfn setport min_port max_port flag e m ((port + n) % 65536)) := by
  intro n
  induction n with
  | zero =>
    intro port s h1 hp h2
    have : port % 65536 = port := Nat.mod_eq_of_lt (by omega)
    simp [applyAll, Flow.andThen, this]
  | succ n ih =>
    intro port s h1 hp h2
    have hc : min_port ≤ port ∧ port ≤ max_port := ⟨h1, by omega⟩
    rw [show m + (n + 1) = (m + n) + 1 from rfl]
    simp only [port_loop, hc, and_self, if_true, List.range'_succ, List.map_cons, applyAll]
    split
    · simp [Flow.andThen]
    · rcases Nat.eq_zero_or_pos n with h0 | hpos
      · subst h0
        simp [applyAll, Flow.andThen]
      · have hlt : (port + 1) % 65536 = port + 1 := Nat.mod_eq_of_lt (by omega)
        rw [hlt, ih (port + 1) _ (by omega) (by omega) (by omega)]
        rw [show port + 1 + n = port + (n + 1) by omega]

theorem Flow.andThen_next {σ : Type} (r : Flow × σ) :
    Flow.andThen r (fun s => (Flow.next, s)) = r := by
  rcases r with ⟨f, s⟩
  cases f <;> rfl

theorem port_loop_exit {σ ε : Type} (adtfn : ipset_adtfn σ ε) (setport : ε → Nat → ε)
    (min_port max_port flag : Nat) (e : ε) (fuel port : Nat) (s : σ)
    (h : ¬ (min_port ≤ port ∧ port ≤ max_port)) :
    port_loop adtfn setport min_port max_port flag e (fuel + 1) port s = (Flow.next, s) := by
  simp only [port_loop, h, if_false]

theorem port_loop_eq_applyAll {σ ε : Type} (adtfn : ipset_adtfn σ ε) (setport : ε → Nat → ε)
    (min_port max_port flag : Nat) (e : ε) (hmin : min_port ≤ 65535) (hmax : max_port ≤ 65535)
    (hwrap : max_port < 65535 ∨ 0 < min_port) (fuel : Nat)
    (hfuel : max_port + 1 - min_port < fuel) (s : σ) :
    port_loop adtfn setport min_port max_port flag e fuel min_port s
      = applyAll adtfn flag (port_elems setport min_port max_port e) s := by
  obtain ⟨m, rfl⟩ : ∃ m, fuel = (m + 1) + (max_port + 1 - min_port) :=
    ⟨fuel - (max_port + 1 - min_port) - 1, by omega⟩
  by_cases hle : min_port ≤ max_port
  · rw [port_loop_run adtfn setport min_port max_port flag e hmax (m + 1) _ _ s
      (Nat.le_refl _) hmin (by omega)]
    have hx : ¬ (min_port ≤ (min_port + (max_port + 1 - min_port)) % 65536
        ∧ (min_port + (max_port + 1 - min_port)) % 65536 ≤ max_port) := by
      have : min_port + (max_port + 1 - min_port) = max_port + 1 := by omega
      rw [this]
      omega
    have hk : port_loop adtfn setport min_port max_port flag e (m + 1)
        ((min_port + (max_port + 1 - min_port)) % 65536) = fun s => (Flow.next, s) := by
      funext s'
      exact port_loop_exit adtfn setport min_port max_port flag e m _ s' hx
    rw [hk, Flow.andThen_next]
    rfl
  · have h0 : max_port + 1 - min_port = 0 := by omega
    simp only [port_elems, h0, List.range'_zero, List.map_nil, applyAll, Nat.add_zero]
    exact port_loop_exit adtfn setport min_port max_port flag e m _ s (by omega)

theorem port_loop_congr {σ ε : Type} (adtfn : ipset_adtfn σ ε) (setport : ε → Nat → ε)
    (min_port max_port flag : Nat) (e e' : ε) (h : ∀ p, setport e p = setport e' p) :
    ∀ (fuel port : Nat) (s : σ),
      port_loop adtfn setport min_port max_port flag e fuel port s
        = port_loop adtfn setport min_port max_port flag e' fuel port s := by
  intro fuel
  induction fuel with
  | zero => intro port s; rfl
  | succ k ih =>
    intro port s
    simp only [port_loop, h, ih]

theorem ip_loop4_congr {σ : Type} (adtfn : ipset_adtfn σ elem4_t) (param : ipset_param)
    (ip_to fuel : Nat) :
    ∀ (n ip : Nat) (s : σ) (e e' : elem4_t), e.comment = e'.comment →
      ip_loop4 adtfn param ip_to e fuel n ip s = ip_loop4 adtfn param ip_to e' fuel n ip s := by
  intro n
  induction n with
  | zero => intro ip s e e' _; rfl
  | succ k ih =>
    intro ip s e e' h
    simp only [ip_loop4]
    split
    · rw [port_loop_congr adtfn _ param.min_port param.max_port param.flag
        { ip := htonl ip, port := e.port, proto := param.proto, comment := e.comment }
        { ip := htonl ip, port := e'.port, proto := param.proto, comment := e'.comment }
        (by intro p; simp [h])]
      split
      · rfl
      · rfl
      · exact ih _ _ _ _ h
    · rfl

theorem ip_loop4_step {σ : Type} (adtfn : ipset_adtfn σ elem4_t) (param : ipset_param)
    (ip_to : Nat) (e : elem4_t) (fuel : Nat)
    (hmin : param.min_port ≤ 65535) (hmax : param.max_port ≤ 65535)
    (hwrap : param.max_port < 65535 ∨ 0 < param.min_port)
    (hfuel : param.max_port + 1 - param.min_port < fuel) (n ip : Nat) (s : σ)
    (hip : ip ≤ ip_to) :
    ip_loop4 adtfn param ip_to e fuel (n + 1) ip s
      = Flow.andThen (applyAll adtfn param.flag (expansion4 e.comment param ip 1) s)
          (ip_loop4 adtfn param ip_to e fuel n ((ip + 1) % 4294967296)) := by
  simp only [ip_loop4, hip, if_true]
  rw [port_loop_eq_applyAll adtfn _ param.min_port param.max_port param.flag _ hmin hmax hwrap
    fuel hfuel s]
  have hl : port_elems (fun (x : elem4_t) p => { x with port := p }) param.min_port
      param.max_port { ip := htonl ip, port := e.port, proto := param.proto, comment := e.comment }
      = expansion4 e.comment param ip 1 := by
    simp [port_elems, expansion4, List.range'_one]
  rw [hl]
  generalize applyAll adtfn param.flag (expansion4 e.comment param ip 1) s = r
  rcases r with ⟨f, s1⟩
  cases f
  · simp only [Flow.andThen]
    exact ip_loop4_congr adtfn param ip_to fuel n _ s1 _ e rfl
  · rfl
  · rfl

theorem Flow.andThen_assoc {σ : Type} (r : Flow × σ) (k1 k2 : σ → Flow × σ) :
    Flow.andThen (Flow.andThen r k1) k2 = Flow.andThen r (fun s => Flow.andThen (k1 s) k2) := by
  rcases r with ⟨f, s⟩
  cases f <;> rfl

theorem expansion4_succ (comment : List Nat) (param : ipset_param) (lo n : Nat) :
    expansion4 comment param lo (n + 1)
      = expansion4 comment param lo 1 ++ expansion4 comment param (lo + 1) n := by
  simp [expansion4, List.range'_succ]

theorem ip_loop4_run {σ : Type} (adtfn : ipset_adtfn σ elem4_t) (param : ipset_param)
    (ip_to : Nat) (e : elem4_t) (fuel : Nat)
    (hmin : param.min_port ≤ 65535) (hmax : param.max_port ≤ 65535)
    (hwrap : param.max_port < 65535 ∨ 0 < param.min_port)
    (hfuel : param.max_port + 1 - param.min_port < fuel)
    (hto : ip_to ≤ 4294967295) (m : Nat) :
    ∀ (n ip : Nat) (s : σ), ip ≤ 4294967295 → ip + n ≤ ip_to + 1 →
      ip_loop4 adtfn param ip_to e fuel (m + n) ip s
        = Flow.andThen (applyAll adtfn param.flag (expansion4 e.comment param ip n) s)
            (ip_loop4 adtfn param ip_to e fuel m ((ip + n) % 4294967296)) := by
  intro n
  induction n with
  | zero =>
    intro ip s h1 _
    have : ip % 4294967296 = ip := Nat.mod_eq_of_lt (by omega)
    simp [expansion4, applyAll, Flow.andThen, this]
  | succ n ih =>
    intro ip s h1 h2
    rw [show m + (n + 1) = (m + n) + 1 from rfl,
      ip_loop4_step adtfn param ip_to e fuel hmin hmax hwrap hfuel (m + n) ip s (by omega),
      expansion4_succ e.comment param ip n, applyAll_append, Flow.andThen_assoc]
    congr 1
    funext s1
    rcases Nat.eq_zero_or_pos n with h0 | hpos
    · subst h0
      simp [expansion4, applyAll, Flow.andThen]
    · have hlt : (ip + 1) % 4294967296 = ip + 1 := Nat.mod_eq_of_lt (by omega)
      rw [hlt, ih (ip + 1) s1 (by omega) (by omega), show ip + 1 + n = ip + (n + 1) by omega]

theorem ip_loop4_exit {σ : Type} (adtfn : ipset_adtfn σ elem4_t) (param : ipset_param)
    (ip_to : Nat) (e : elem4_t) (fuel n ip : Nat) (s : σ) (h : ¬ ip ≤ ip_to) :
    ip_loop4 adtfn param ip_to e fuel (n + 1) ip s = (Flow.next, s) := by
  simp only [ip_loop4, h, if_false]

theorem ip_loop4_eq_applyAll {σ : Type} (adtfn : ipset_adtfn σ elem4_t) (param : ipset_param)
    (ip_to : Nat) (e : elem4_t) (fuel budget : Nat)
    (hmin : param.min_port ≤ 65535) (hmax : param.max_port ≤ 65535)
    (hwrap : param.max_port < 65535 ∨ 0 < param.min_port)
    (hfuel : param.max_port + 1 - param.min_port < fuel)
    (hto : ip_to < 4294967295) (ip : Nat) (hip : ip ≤ 4294967295)
    (hbudget : ip_to + 1 - ip < budget) (s : σ) :
    ip_loop4 adtfn param ip_to e fuel budget ip s
      = applyAll adtfn param.flag (expansion4 e.comment param ip (ip_to + 1 - ip)) s := by
  obtain ⟨m, rfl⟩ : ∃ m, budget = (m + 1) + (ip_to + 1 - ip) :=
    ⟨budget - (ip_to + 1 - ip) - 1, by omega⟩
  by_cases hle : ip ≤ ip_to
  · rw [ip_loop4_run adtfn param ip_to e fuel hmin hmax hwrap hfuel (by omega) (m + 1) _ ip s
      hip (by omega)]
    have hk : ip_loop4 adtfn param ip_to e fuel (m + 1) ((ip + (ip_to + 1 - ip)) % 4294967296)
        = fun s => (Flow.next, s) := by
      funext s'
      apply ip_loop4_exit
      have : ip + (ip_to + 1 - ip) = ip_to + 1 := by omega
      rw [this]
      omega
    rw [hk, Flow.andThen_next]
  · have h0 : ip_to + 1 - ip = 0 := by omega
    simp only [h0, expansion4, List.range'_zero, List.flatMap_nil, applyAll, Nat.add_zero]
    exact ip_loop4_exit adtfn param ip_to e fuel m ip s hle

theorem addr_range4_fst_lt (param : ipset_param) : (addr_range4 param).1 < 4294967296 := by
  unfold addr_range4
  have := bswap32_lt param.min_addr.in_s_addr
  split
  · simp only [ip_set_mask_from_to, ntohl]
    omega
  · exact this

theorem adt4_eq_applyAll {σ : Type} (IPSET_MAXCOMLEN fuel : Nat) (opcode : ipset_op)
    (set : ipset σ elem4_t) (param : ipset_param)
    (hop : opcode ≠ IPSET_OP_TEST) (hfam : set.family = param.family)
    (hmin : param.min_port ≤ 65535) (hmax : param.max_port ≤ 65535)
    (hwrap : param.max_port < 65535 ∨ 0 < param.min_port)
    (hto : (addr_range4 param).2 < 4294967295)
    (hfuel : param.max_port + 1 - param.min_port < fuel)
    (hbudget : (addr_range4 param).2 + 1 - (addr_range4 param).1 < fuel) :
    hash_ipport_adt4 IPSET_MAXCOMLEN fuel opcode set param
      = finish (applyAll (set.adtfn opcode) param.flag
          (expansion4 (elem_comment IPSET_MAXCOMLEN set.comment opcode param) param
            (addr_range4 param).1 ((addr_range4 param).2 + 1 - (addr_range4 param).1))
          set.table) := by
  have hlo := addr_range4_fst_lt param
  unfold hash_ipport_adt4
  simp only [hfam, ne_eq, not_true_eq_false, if_false, hop]
  have hr : (if ¬ param.cidr = 0 then
        ip_set_mask_from_to (ntohl param.min_addr.in_s_addr) param.cidr
      else (ntohl param.min_addr.in_s_addr, ntohl param.max_addr.in_s_addr))
      = addr_range4 param := by
    simp [addr_range4]
  rw [hr, ip_loop4_eq_applyAll (set.adtfn opcode) param _ _ fuel fuel hmin hmax hwrap hfuel hto
    _ (by omega) hbudget]
  have hc : (if set.comment = true ∧ opcode = IPSET_OP_ADD then
        ({ ip := 0, port := 0, proto := 0,
           comment := rte_strlcpy (List.replicate IPSET_MAXCOMLEN 0) param.comment
             IPSET_MAXCOMLEN } : elem4_t)
      else { ip := 0, port := 0, proto := 0, comment := List.replicate IPSET_MAXCOMLEN 0 }).comment
      = elem_comment IPSET_MAXCOMLEN set.comment opcode param := by
    unfold elem_comment
    split <;> rfl
  rw [hc]
  generalize applyAll (set.adtfn opcode) param.flag _ set.table = r
  rcases r with ⟨f, s1⟩
  cases f <;> rfl

theorem applyAll_logged_ok {σ ε : Type} (f : ipset_adtfn σ ε) (flag : Nat)
    (hok : ∀ s e fl, (f s e fl).2 = 0) :
    ∀ (l : List ε) (s : σ) (log : List (ε × Nat)),
      applyAll (logged f) flag l (s, log)
        = (Flow.next, ((applyAll f flag l s).2, log ++ l.map fun e => (e, flag))) := by
  intro l
  induction l with
  | nil => intro s log; simp [applyAll]
  | cons x xs ih =>
    intro s log
    simp only [applyAll, logged, hok, ne_eq, not_true_eq_false, if_false, ih, List.map_cons,
      List.append_assoc, List.singleton_append]

theorem length_grid {β : Type} (f : Nat → Nat → β) (k : Nat) :
    ∀ (n lo minp : Nat),
      ((List.range' lo n).flatMap fun a => (List.range' minp k).map (f a)).length = n * k := by
  intro n
  induction n with
  | zero => intro lo minp; simp
  | succ n ih =>
    intro lo minp
    rw [List.range'_succ, List.flatMap_cons, List.length_append, ih, List.length_map,
      List.length_range', Nat.succ_mul, Nat.add_comm]

theorem nodup_grid {β : Type} (f : Nat → Nat → β) (lo n minp k : Nat)
    (hinj : ∀ a ∈ List.range' lo n, ∀ p ∈ List.range' minp k,
      ∀ a' ∈ List.range' lo n, ∀ p' ∈ List.range' minp k,
        f a p = f a' p' → a = a' ∧ p = p') :
    ((List.range' lo n).flatMap fun a => (List.range' minp k).map (f a)).Nodup := by
  have h : ((List.range' lo n).flatMap fun a => (List.range' minp k).map (f a))
      = (List.product (List.range' lo n) (List.range' minp k)).map fun x => f x.1 x.2 := by
    simp [List.product, List.map_flatMap, Function.comp_def]
  rw [h]
  refine List.Nodup.map_on ?_ (List.Nodup.product (List.nodup_range' _ _) (List.nodup_range' _ _))
  rintro ⟨a, p⟩ hx ⟨a', p'⟩ hy hxy
  rw [List.pair_mem_product] at hx hy
  obtain ⟨h1, h2⟩ := hinj a hx.1 p hx.2 a' hy.1 p' hy.2 hxy
  simp [h1, h2]

theorem htonl_inj (a b : Nat) (ha : a < 4294967296) (hb : b < 4294967296)
    (h : htonl a = htonl b) : a = b := by
  have := congrArg bswap32 h
  simpa [htonl, bswap32_bswap32 a ha, bswap32_bswap32 b hb] using this

theorem htons_inj (a b : Nat) (ha : a < 65536) (hb : b < 65536)
    (h : htons a = htons b) : a = b := by
  have := congrArg bswap16 h
  simpa [htons, bswap16_bswap16 a ha, bswap16_bswap16 b hb] using this

/-- C1 — range expansion order and content of `hash_ipport_adt4`: for ADD or DEL, matching
family, no CIDR, host-order addresses `min_addr ≤ max_addr < 255.255.255.255`, ports
`min_port ≤ max_port < 65535` and a handler that always returns 0, the operation returns
`EDPVS_OK`; the calls it makes are, in this order, for every address ascending and within
each address every port ascending, the element `(htonl a, htons p, param.proto)` with flag
word `param.flag`; there are `(max_addr - min_addr + 1) * (max_port - min_port + 1)` calls
and their `(ip, port, proto)` triples are pairwise distinct. -/
theorem adt4_range_expansion {σ : Type} (IPSET_MAXCOMLEN fuel : Nat) (opcode : ipset_op)
    (set : ipset σ elem4_t) (param : ipset_param)
    (hop : opcode = IPSET_OP_ADD ∨ opcode = IPSET_OP_DEL)
    (hfam : set.family = param.family) (hcidr : param.cidr = 0)
    (haddr : ntohl param.min_addr.in_s_addr ≤ ntohl param.max_addr.in_s_addr)
    (haddr_max : ntohl param.max_addr.in_s_addr < 4294967295)
    (hport : param.min_port ≤ param.max_port) (hport_max : param.max_port < 65535)
    (hok : ∀ s e fl, (set.adtfn opcode s e fl).2 = 0)
    (hfuel_addr : ntohl param.max_addr.in_s_addr - ntohl param.min_addr.in_s_addr + 1 < fuel)
    (hfuel_port : param.max_port - param.min_port + 1 < fuel) :
    (hash_ipport_adt4 IPSET_MAXCOMLEN fuel opcode set.logged param).1 = some EDPVS_OK
    ∧ (hash_ipport_adt4 IPSET_MAXCOMLEN fuel opcode set.logged param).2.2.map
          (fun c => (c.1.ip, c.1.port, c.1.proto, c.2))
        = (List.range' (ntohl param.min_addr.in_s_addr)
            (ntohl param.max_addr.in_s_addr - ntohl param.min_addr.in_s_addr + 1)).flatMap
          (fun a => (List.range' param.min_port (param.max_port - param.min_port + 1)).map
            fun p => (htonl a, htons p, param.proto, param.flag))
    ∧ (hash_ipport_adt4 IPSET_MAXCOMLEN fuel opcode set.logged param).2.2.length
        = (ntohl param.max_addr.in_s_addr - ntohl param.min_addr.in_s_addr + 1)
            * (param.max_port - param.min_port + 1)
    ∧ ((hash_ipport_adt4 IPSET_MAXCOMLEN fuel opcode set.logged param).2.2.map
          (fun c => (c.1.ip, c.1.port, c.1.proto))).Nodup := by
  have hne : opcode ≠ IPSET_OP_TEST := by rcases hop with h | h <;> simp [h]
  have hr : addr_range4 param
      = (ntohl param.min_addr.in_s_addr, ntohl param.max_addr.in_s_addr) := by
    simp [addr_range4, hcidr]
  have hn : ntohl param.max_addr.in_s_addr + 1 - ntohl param.min_addr.in_s_addr
      = ntohl param.max_addr.in_s_addr - ntohl param.min_addr.in_s_addr + 1 := by omega
  have hk : param.max_port + 1 - param.min_port = param.max_port - param.min_port + 1 := by
    omega
  have hrun := adt4_eq_applyAll IPSET_MAXCOMLEN fuel opcode set.logged param hne hfam
    (by omega) (by omega) (Or.inl hport_max) (by rw [hr]; exact haddr_max) (by omega)
    (by rw [hr]; simp only; omega)
  have e1 : set.logged.adtfn opcode = logged (set.adtfn opcode) := rfl
  have e2 : set.logged.table = (set.table, []) := rfl
  have e3 : set.logged.comment = set.comment := rfl
  rw [hr, e1, e2, e3, applyAll_logged_ok _ _ hok] at hrun
  simp only [finish, List.nil_append, hn] at hrun
  have hcalls : (hash_ipport_adt4 IPSET_MAXCOMLEN fuel opcode set.logged param).2.2.map
          (fun c => (c.1.ip, c.1.port, c.1.proto, c.2))
        = (List.range' (ntohl param.min_addr.in_s_addr)
            (ntohl param.max_addr.in_s_addr - ntohl param.min_addr.in_s_addr + 1)).flatMap
          (fun a => (List.range' param.min_port (param.max_port - param.min_port + 1)).map
            fun p => (htonl a, htons p, param.proto, param.flag)) := by
    rw [hrun]
    simp [expansion4, List.map_flatMap, hk, Function.comp_def]
  refine ⟨by rw [hrun], hcalls, ?_, ?_⟩
  · have := congrArg List.length hcalls
    rw [List.length_map, length_grid] at this
    exact this
  · have h3 : (hash_ipport_adt4 IPSET_MAXCOMLEN fuel opcode set.logged param).2.2.map
          (fun c => (c.1.ip, c.1.port, c.1.proto))
        = ((hash_ipport_adt4 IPSET_MAXCOMLEN fuel opcode set.logged param).2.2.map
          (fun c => (c.1.ip, c.1.port, c.1.proto, c.2))).map
            (fun t => (t.1, t.2.1, t.2.2.1)) := by
      simp
    rw [h3, hcalls, List.map_flatMap]
    simp only [List.map_map]
    apply nodup_grid (fun a p => (htonl a, htons p, param.proto))
    intro a ha p hp a' ha' p' hp' heq
    rw [List.mem_range'_1] at ha hp ha' hp'
    simp only [Prod.mk.injEq, and_true] at heq
    have hb : ntohl param.max_addr.in_s_addr < 4294967296 := bswap32_lt _
    exact ⟨htonl_inj a a' (by omega) (by omega) heq.1,
      htons_inj p p' (by omega) (by omega) heq.2⟩

theorem adt4_range_expansion_witness :
    (hash_ipport_adt4 32 4 IPSET_OP_ADD set4_accept.logged
        (param4 167772161 167772162 80 81 0)).1 = some EDPVS_OK
    ∧ (hash_ipport_adt4 32 4 IPSET_OP_ADD set4_accept.logged
        (param4 167772161 167772162 80 81 0)).2.2.length = 2 * 2 := by
  have h := adt4_range_expansion 32 4 IPSET_OP_ADD set4_accept
    (param4 167772161 167772162 80 81 0) (Or.inl rfl) rfl rfl (by decide) (by decide)
    (by decide) (by decide) (fun _ _ _ => rfl) (by decide) (by decide)
  exact ⟨h.1, h.2.2.1⟩

theorem mask_from_to_snd (ip cidr : Nat) :
    (ip_set_mask_from_to ip cidr).2 + 1 - (ip_set_mask_from_to ip cidr).1 = 2 ^ (32 - cidr) := by
  have hpos : 0 < 2 ^ (32 - cidr) := Nat.pow_pos (by decide)
  simp only [ip_set_mask_from_to]
  omega

/-- C2 — CIDR expansion of `hash_ipport_adt4`: for ADD or DEL, matching family, a prefix
length `1 ≤ L ≤ 32`, a network that does not end at 255.255.255.255, ports
`min_port ≤ max_port < 65535` and a handler that always returns 0, the operation returns
`EDPVS_OK` and applies exactly the `2 ^ (32 - L)` addresses from `lower` (bits beyond `L`
cleared) to `upper` (bits beyond `L` set), each with every port of the range, in order; the
result does not depend on `range.max_addr`. In particular `/30` over 10.0.0.0 with ports
100..102 applies the 12 pairwise distinct elements 10.0.0.0..10.0.0.3 x 100..102, and
(10.0.0.0, 99) is not among them. -/
theorem adt4_cidr_expansion {σ : Type} (IPSET_MAXCOMLEN fuel : Nat) (opcode : ipset_op)
    (set : ipset σ elem4_t) (param : ipset_param)
    (hop : opcode = IPSET_OP_ADD ∨ opcode = IPSET_OP_DEL)
    (hfam : set.family = param.family)
    (hL1 : 1 ≤ param.cidr) (hL2 : param.cidr ≤ 32)
    (hend : (ip_set_mask_from_to (ntohl param.min_addr.in_s_addr) param.cidr).2 < 4294967295)
    (hport : param.min_port ≤ param.max_port) (hport_max : param.max_port < 65535)
    (hok : ∀ s e fl, (set.adtfn opcode s e fl).2 = 0)
    (hfuel_addr : 2 ^ (32 - param.cidr) < fuel)
    (hfuel_port : param.max_port - param.min_port + 1 < fuel) :
    (hash_ipport_adt4 IPSET_MAXCOMLEN fuel opcode set.logged param).1 = some EDPVS_OK
    ∧ (hash_ipport_adt4 IPSET_MAXCOMLEN fuel opcode set.logged param).2.2.map
          (fun c => (c.1.ip, c.1.port, c.1.proto, c.2))
        = (List.range' (ip_set_mask_from_to (ntohl param.min_addr.in_s_addr) param.cidr).1
            (2 ^ (32 - param.cidr))).flatMap
          (fun a => (List.range' param.min_port (param.max_port - param.min_port + 1)).map
            fun p => (htonl a, htons p, param.proto, param.flag))
    ∧ (ip_set_mask_from_to (ntohl param.min_addr.in_s_addr) param.cidr).1
        = ntohl param.min_addr.in_s_addr
            - ntohl param.min_addr.in_s_addr % 2 ^ (32 - param.cidr)
    ∧ (ip_set_mask_from_to (ntohl param.min_addr.in_s_addr) param.cidr).2
        = (ip_set_mask_from_to (ntohl param.min_addr.in_s_addr) param.cidr).1
            + (2 ^ (32 - param.cidr) - 1)
    ∧ (∀ m : inet_addr,
        hash_ipport_adt4 IPSET_MAXCOMLEN fuel opcode set.logged { param with max_addr := m }
          = hash_ipport_adt4 IPSET_MAXCOMLEN fuel opcode set.logged param)
    ∧ (param.cidr = 30 → param.min_addr.in_s_addr = htonl 167772160 →
        param.min_port = 100 → param.max_port = 102 →
        (hash_ipport_adt4 IPSET_MAXCOMLEN fuel opcode set.logged param).2.2.map
            (fun c => (ntohl c.1.ip, ntohs c.1.port))
          = [(167772160, 100), (167772160, 101), (167772160, 102),
             (167772161, 100), (167772161, 101), (167772161, 102),
             (167772162, 100), (167772162, 101), (167772162, 102),
             (167772163, 100), (167772163, 101), (167772163, 102)]
        ∧ ((hash_ipport_adt4 IPSET_MAXCOMLEN fuel opcode set.logged param).2.2.map
            (fun c => (c.1.ip, c.1.port, c.1.proto))).Nodup
        ∧ (hash_ipport_adt4 IPSET_MAXCOMLEN fuel opcode set.logged param).2.2.length = 12
        ∧ (167772160, 99) ∉
            (hash_ipport_adt4 IPSET_MAXCOMLEN fuel opcode set.logged param).2.2.map
              (fun c => (ntohl c.1.ip, ntohs c.1.port))) := by
  have hne : opcode ≠ IPSET_OP_TEST := by rcases hop with h | h <;> simp [h]
  have hc0 : param.cidr ≠ 0 := by omega
  have hr : ∀ m : inet_addr, addr_range4 { param with max_addr := m }
      = ip_set_mask_from_to (ntohl param.min_addr.in_s_addr) param.cidr := by
    intro m
    simp [addr_range4, hc0]
  have hk : param.max_port + 1 - param.min_port = param.max_port - param.min_port + 1 := by
    omega
  have e1 : set.logged.adtfn opcode = logged (set.adtfn opcode) := rfl
  have e2 : set.logged.table = (set.table, []) := rfl
  have e3 : set.logged.comment = set.comment := rfl
  have hrun : ∀ m : inet_addr,
      hash_ipport_adt4 IPSET_MAXCOMLEN fuel opcode set.logged { param with max_addr := m }
        = (some EDPVS_OK,
            ((applyAll (set.adtfn opcode) param.flag
              (expansion4 (elem_comment IPSET_MAXCOMLEN set.comment opcode param) param
                (ip_set_mask_from_to (ntohl param.min_addr.in_s_addr) param.cidr).1
                (2 ^ (32 - param.cidr))) set.table).2,
             (expansion4 (elem_comment IPSET_MAXCOMLEN set.comment opcode param) param
                (ip_set_mask_from_to (ntohl param.min_addr.in_s_addr) param.cidr).1
                (2 ^ (32 - param.cidr))).map fun e => (e, param.flag))) := by
    intro m
    have h := adt4_eq_applyAll IPSET_MAXCOMLEN fuel opcode set.logged
      { param with max_addr := m } hne hfam
      (by show param.min_port ≤ 65535; omega) (by show param.max_port ≤ 65535; omega)
      (Or.inl hport_max) (by rw [hr]; exact hend)
      (by show param.max_port + 1 - param.min_port < fuel; omega)
      (by rw [hr, mask_from_to_snd]; exact hfuel_addr)
    rw [hr, mask_from_to_snd, e1, e2, e3] at h
    rw [h]
    exact congrArg finish (applyAll_logged_ok _ _ hok _ _ _)
  have hself : hash_ipport_adt4 IPSET_MAXCOMLEN fuel opcode set.logged param
      = hash_ipport_adt4 IPSET_MAXCOMLEN fuel opcode set.logged
          { param with max_addr := param.max_addr } := rfl
  have hcalls : (hash_ipport_adt4 IPSET_MAXCOMLEN fuel opcode set.logged param).2.2.map
          (fun c => (c.1.ip, c.1.port, c.1.proto, c.2))
        = (List.range' (ip_set_mask_from_to (ntohl param.min_addr.in_s_addr) param.cidr).1
            (2 ^ (32 - param.cidr))).flatMap
          (fun a => (List.range' param.min_port (param.max_port - param.min_port + 1)).map
            fun p => (htonl a, htons p, param.proto, param.flag)) := by
    rw [hself, hrun]
    simp [expansion4, List.map_flatMap, hk, Function.comp_def]
  refine ⟨by rw [hself, hrun], hcalls, rfl, rfl, fun m => by rw [hrun, hself, hrun], ?_⟩
  intro h30 hbase hp0 hp1
  have hlo : (ip_set_mask_from_to (ntohl param.min_addr.in_s_addr) param.cidr).1
      = 167772160 := by
    rw [h30, hbase]; decide
  rw [hlo, h30, hp0, hp1] at hcalls
  have hdec : (hash_ipport_adt4 IPSET_MAXCOMLEN fuel opcode set.logged param).2.2.map
            (fun c => (ntohl c.1.ip, ntohs c.1.port))
          = [(167772160, 100), (167772160, 101), (167772160, 102),
             (167772161, 100), (167772161, 101), (167772161, 102),
             (167772162, 100), (167772162, 101), (167772162, 102),
             (167772163, 100), (167772163, 101), (167772163, 102)] := by
    have h2 := congrArg (List.map fun t : Nat × Nat × Nat × Nat => (ntohl t.1, ntohs t.2.1)) hcalls
    rw [List.map_map] at h2
    rw [show (fun c : elem4_t × Nat => (ntohl c.1.ip, ntohs c.1.port))
      = (fun t : Nat × Nat × Nat × Nat => (ntohl t.1, ntohs t.2.1))
          ∘ (fun c : elem4_t × Nat => (c.1.ip, c.1.port, c.1.proto, c.2)) from rfl, h2]
    simp only [List.map_flatMap, List.map_map, Function.comp_def]
    decide
  have hnd : ((hash_ipport_adt4 IPSET_MAXCOMLEN fuel opcode set.logged param).2.2.map
            (fun c => (c.1.ip, c.1.port, c.1.proto))).Nodup := by
    have h3 : (fun c : elem4_t × Nat => (ntohl c.1.ip, ntohs c.1.port))
        = (fun t : Nat × Nat × Nat => (ntohl t.1, ntohs t.2.1))
            ∘ (fun c : elem4_t × Nat => (c.1.ip, c.1.port, c.1.proto)) := rfl
    rw [h3, ← List.map_map] at hdec
    apply List.Nodup.of_map (fun t : Nat × Nat × Nat => (ntohl t.1, ntohs t.2.1))
    rw [hdec]
    decide
  refine ⟨hdec, hnd, ?_, ?_⟩
  · have := congrArg List.length hdec
    simpa using this
  · rw [hdec]
    decide

theorem adt4_cidr_expansion_witness :
    (hash_ipport_adt4 32 5 IPSET_OP_ADD set4_accept.logged
        (param4 167772160 0 100 102 30)).1 = some EDPVS_OK
    ∧ (hash_ipport_adt4 32 5 IPSET_OP_ADD set4_accept.logged
        (param4 167772160 0 100 102 30)).2.2.length = 12 := by
  have h := adt4_cidr_expansion 32 5 IPSET_OP_ADD set4_accept
    (param4 167772160 0 100 102 30) (Or.inl rfl) rfl (by decide) (by decide) (by decide)
    (by decide) (by decide) (fun _ _ _ => rfl) (by decide) (by decide)
  exact ⟨h.1, (h.2.2.2.2.2 rfl rfl rfl rfl).2.2.1⟩

theorem ntohl_htonl (x : Nat) (h : x < 4294967296) : ntohl (htonl x) = x :=
  bswap32_bswap32 x h

theorem ntohs_htons (x : Nat) (h : x < 65536) : ntohs (htons x) = x :=
  bswap16_bswap16 x h

theorem htonl_ntohl (x : Nat) (h : x < 4294967296) : htonl (ntohl x) = x :=
  bswap32_bswap32 x h

theorem finish_fst_of_spin {σ : Type} (r : Flow × σ) (h : r.1 = Flow.spin) :
    (finish r).1 = none := by
  rcases r with ⟨fl, s⟩
  cases fl <;> simp_all [finish]

theorem finish_snd {σ : Type} (r : Flow × σ) : (finish r).2 = r.2 := by
  rcases r with ⟨fl, s⟩
  cases fl <;> rfl

theorem logged_ok {σ ε : Type} (f : ipset_adtfn σ ε) (hok : ∀ s x fl, (f s x fl).2 = 0) :
    ∀ st x fl, (logged f st x fl).2 = 0 := by
  intro st x fl
  exact hok _ _ _

theorem adt6_eq_port_loop {σ : Type} (IPSET_MAXCOMLEN fuel : Nat) (opcode : ipset_op)
    (set : ipset σ elem6_t) (param : ipset_param)
    (hop : opcode ≠ IPSET_OP_TEST) (hfam : set.family = param.family) :
    hash_ipport_adt6 IPSET_MAXCOMLEN fuel opcode set param
      = finish (port_loop (set.adtfn opcode) (fun (x : elem6_t) p => { x with port := p })
          param.min_port param.max_port param.flag
          { ip := param.min_addr.in6, port := 0, proto := param.proto,
            comment := elem_comment IPSET_MAXCOMLEN set.comment opcode param }
          fuel param.min_port set.table) := by
  unfold hash_ipport_adt6
  simp only [hfam, ne_eq, not_true_eq_false, if_false, hop]
  have hc : (if set.comment = true ∧ opcode = IPSET_OP_ADD then
        ({ ip := param.min_addr.in6, port := 0, proto := param.proto,
           comment := rte_strlcpy (List.replicate IPSET_MAXCOMLEN 0) param.comment
             IPSET_MAXCOMLEN } : elem6_t)
      else { ip := param.min_addr.in6, port := 0, proto := param.proto,
             comment := List.replicate IPSET_MAXCOMLEN 0 })
      = { ip := param.min_addr.in6, port := 0, proto := param.proto,
          comment := elem_comment IPSET_MAXCOMLEN set.comment opcode param } := by
    unfold elem_comment
    split <;> rfl
  rw [hc]
  generalize port_loop (set.adtfn opcode) _ param.min_port param.max_port param.flag _ fuel
    param.min_port set.table = r
  rcases r with ⟨f, s1⟩
  cases f <;> rfl

theorem adt4_eq_ip_loop4 {σ : Type} (IPSET_MAXCOMLEN fuel : Nat) (opcode : ipset_op)
    (set : ipset σ elem4_t) (param : ipset_param)
    (hop : opcode ≠ IPSET_OP_TEST) (hfam : set.family = param.family) :
    hash_ipport_adt4 IPSET_MAXCOMLEN fuel opcode set param
      = finish (ip_loop4 (set.adtfn opcode) param (addr_range4 param).2
          { ip := 0, port := 0, proto := 0,
            comment := elem_comment IPSET_MAXCOMLEN set.comment opcode param }
          fuel fuel (addr_range4 param).1 set.table) := by
  unfold hash_ipport_adt4
  simp only [hfam, ne_eq, not_true_eq_false, if_false, hop]
  have hr : (if ¬ param.cidr = 0 then
        ip_set_mask_from_to (ntohl param.min_addr.in_s_addr) param.cidr
      else (ntohl param.min_addr.in_s_addr, ntohl param.max_addr.in_s_addr))
      = addr_range4 param := by
    simp [addr_range4]
  have hc : (if set.comment = true ∧ opcode = IPSET_OP_ADD then
        ({ ip := 0, port := 0, proto := 0,
           comment := rte_strlcpy (List.replicate IPSET_MAXCOMLEN 0) param.comment
             IPSET_MAXCOMLEN } : elem4_t)
      else { ip := 0, port := 0, proto := 0, comment := List.replicate IPSET_MAXCOMLEN 0 })
      = { ip := 0, port := 0, proto := 0,
          comment := elem_comment IPSET_MAXCOMLEN set.comment opcode param } := by
    unfold elem_comment
    split <;> rfl
  rw [hr, hc]
  generalize ip_loop4 (set.adtfn opcode) param _ _ fuel fuel _ set.table = r
  rcases r with ⟨f, s1⟩
  cases f <;> rfl

theorem port_loop_full_range_spin {σ ε : Type} (f : ipset_adtfn σ ε) (setport : ε → Nat → ε)
    (flag : Nat) (e : ε) (hok : ∀ s x fl, (f s x fl).2 = 0) :
    ∀ (fuel port : Nat) (s : σ), port ≤ 65535 →
      (port_loop f setport 0 65535 flag e fuel port s).1 = Flow.spin := by
  intro fuel
  induction fuel with
  | zero => intro port s _; rfl
  | succ k ih =>
    intro port s hp
    have hc : 0 ≤ port ∧ port ≤ 65535 := ⟨Nat.zero_le _, hp⟩
    simp only [port_loop, hc, and_self, if_true, hok, ne_eq, not_true_eq_false, if_false]
    exact ih _ _ (by omega)

theorem port_loop_full_range_calls {σ ε : Type} (f : ipset_adtfn σ ε) (setport : ε → Nat → ε)
    (flag : Nat) (e : ε) (hok : ∀ s x fl, (f s x fl).2 = 0) :
    ∀ (fuel port : Nat) (st : σ × List (ε × Nat)), port ≤ 65535 →
      (port_loop (logged f) setport 0 65535 flag e fuel port st).2.2.length
          = st.2.length + fuel := by
  intro fuel
  induction fuel with
  | zero => intro port st _; rfl
  | succ k ih =>
    intro port st hp
    have hc : 0 ≤ port ∧ port ≤ 65535 := ⟨Nat.zero_le _, hp⟩
    simp only [port_loop, hc, and_self, if_true, logged, hok, ne_eq, not_true_eq_false,
      if_false]
    rw [ih _ _ (by omega)]
    simp
    omega

theorem port_loop_no_ret {σ ε : Type} (f : ipset_adtfn σ ε) (setport : ε → Nat → ε)
    (min_port max_port flag : Nat) (e : ε) (hok : ∀ s x fl, (f s x fl).2 = 0) :
    ∀ (fuel port : Nat) (s : σ) (r : Int),
      (port_loop f setport min_port max_port flag e fuel port s).1 ≠ Flow.ret r := by
  intro fuel
  induction fuel with
  | zero => intro port s r h; simp [port_loop] at h
  | succ k ih =>
    intro port s r
    simp only [port_loop, hok, ne_eq, not_true_eq_false, if_false]
    split
    · exact ih _ _ r
    · simp

theorem ip_loop4_port_wrap_spin {σ : Type} (f : ipset_adtfn σ elem4_t) (param : ipset_param)
    (ip_to fuel : Nat) (hok : ∀ s x fl, (f s x fl).2 = 0)
    (hmin : param.min_port = 0) (hmax : param.max_port = 65535)
    (n ip : Nat) (e : elem4_t) (s : σ) (hip : ip ≤ ip_to) :
    (ip_loop4 f param ip_to e fuel n ip s).1 = Flow.spin := by
  cases n with
  | zero => rfl
  | succ k =>
    simp only [ip_loop4, hip, if_true, hmin, hmax]
    have hs := port_loop_full_range_spin f (fun (x : elem4_t) p => { x with port := p })
      param.flag { ip := htonl ip, port := e.port, proto := param.proto, comment := e.comment }
      hok fuel 0 s (by decide)
    generalize port_loop f (fun (x : elem4_t) p => { x with port := p }) 0 65535 param.flag
      { ip := htonl ip, port := e.port, proto := param.proto, comment := e.comment }
      fuel 0 s = res at hs
    rcases res with ⟨fl, s1⟩
    simp only at hs
    subst hs
    rfl

theorem ip_loop4_full_range_spin {σ : Type} (f : ipset_adtfn σ elem4_t) (param : ipset_param)
    (fuel : Nat) (hok : ∀ s x fl, (f s x fl).2 = 0) :
    ∀ (n ip : Nat) (e : elem4_t) (s : σ), ip ≤ 4294967295 →
      (ip_loop4 f param 4294967295 e fuel n ip s).1 = Flow.spin := by
  intro n
  induction n with
  | zero => intro ip e s _; rfl
  | succ k ih =>
    intro ip e s hip
    simp only [ip_loop4, hip, if_true]
    have hnr := port_loop_no_ret f (fun (x : elem4_t) p => { x with port := p })
      param.min_port param.max_port param.flag
      { ip := htonl ip, port := e.port, proto := param.proto, comment := e.comment } hok
      fuel param.min_port s
    generalize port_loop f (fun (x : elem4_t) p => { x with port := p })
      param.min_port param.max_port param.flag
      { ip := htonl ip, port := e.port, proto := param.proto, comment := e.comment }
      fuel param.min_port s = res at hnr
    rcases res with ⟨fl, s1⟩
    cases fl with
    | next => exact ih _ _ _ (by omega)
    | ret r => exact absurd rfl (hnr r)
    | spin => rfl

/-- C3 — port-range boundary, evaluated at `min_port = 0, max_port = 65535` with a handler
that always returns 0: the guard `port >= min_port` does not stop the wrapped counter, so
for every iteration budget `hash_ipport_adt6` and `hash_ipport_adt4` (single address) have
not returned, and the IPv6 run has made as many calls as the budget allows, more than the
65536 ports of the range. -/
theorem port_range_full_never_returns (IPSET_MAXCOMLEN fuel : Nat) :
    (hash_ipport_adt6 IPSET_MAXCOMLEN fuel IPSET_OP_ADD set6_accept.logged
        (param6 0 65535)).1 = none
    ∧ (hash_ipport_adt6 IPSET_MAXCOMLEN fuel IPSET_OP_ADD set6_accept.logged
        (param6 0 65535)).2.2.length = fuel
    ∧ (hash_ipport_adt4 IPSET_MAXCOMLEN fuel IPSET_OP_ADD set4_accept.logged
        (param4 167772161 167772161 0 65535 0)).1 = none := by
  refine ⟨?_, ?_, ?_⟩
  · rw [adt6_eq_port_loop _ _ _ _ _ (by decide) rfl]
    exact finish_fst_of_spin _
      (port_loop_full_range_spin _ _ _ _ (logged_ok _ (fun _ _ _ => rfl)) _ _ _ (by decide))
  · rw [adt6_eq_port_loop _ _ _ _ _ (by decide) rfl, finish_snd]
    have h := port_loop_full_range_calls (accept : ipset_adtfn Unit elem6_t)
      (fun (x : elem6_t) p => { x with port := p }) (param6 0 65535).flag
      { ip := (param6 0 65535).min_addr.in6, port := 0, proto := (param6 0 65535).proto,
        comment := elem_comment IPSET_MAXCOMLEN set6_accept.logged.comment IPSET_OP_ADD
          (param6 0 65535) }
      (fun _ _ _ => rfl) fuel 0 ((), []) (by decide)
    simpa using h
  · rw [adt4_eq_ip_loop4 _ _ _ _ _ (by decide) rfl]
    exact finish_fst_of_spin _
      (ip_loop4_port_wrap_spin _ _ _ _ (logged_ok _ (fun _ _ _ => rfl)) rfl rfl _ _ _ _
        (by decide))

/-- C4 — bulk ADD/DEL over an address range that ends at 255.255.255.255, evaluated at
`min_addr = max_addr = 255.255.255.255` and at the network 255.255.255.252/30, port 80,
with a handler that always returns 0: `ip <= ip_to` holds for every 32-bit `ip`, so for
every iteration budget `hash_ipport_adt4` has not returned; after 255.255.255.255 the
counter wraps and the loop goes on with 0.0.0.0 and 0.0.0.1, which are outside the
range. -/
theorem addr_range_top_never_returns (IPSET_MAXCOMLEN fuel : Nat) :
    (hash_ipport_adt4 IPSET_MAXCOMLEN fuel IPSET_OP_ADD set4_accept.logged
        (param4 4294967295 4294967295 80 80 0)).1 = none
    ∧ (hash_ipport_adt4 IPSET_MAXCOMLEN fuel IPSET_OP_DEL set4_accept.logged
        (param4 4294967292 0 80 80 30)).1 = none
    ∧ (hash_ipport_adt4 IPSET_MAXCOMLEN 3 IPSET_OP_ADD set4_accept.logged
        (param4 4294967295 4294967295 80 80 0)).2.2.map
          (fun c => (ntohl c.1.ip, ntohs c.1.port))
        = [(4294967295, 80), (0, 80), (1, 80)] := by
  have r1 : addr_range4 (param4 4294967295 4294967295 80 80 0) = (4294967295, 4294967295) := by
    decide
  have r2 : addr_range4 (param4 4294967292 0 80 80 30) = (4294967292, 4294967295) := by
    decide
  refine ⟨?_, ?_, ?_⟩
  · rw [adt4_eq_ip_loop4 _ _ _ _ _ (by decide) rfl, r1]
    exact finish_fst_of_spin _
      (ip_loop4_full_range_spin _ _ _ (logged_ok _ (fun _ _ _ => rfl)) _ _ _ _ (by decide))
  · rw [adt4_eq_ip_loop4 _ _ _ _ _ (by decide) rfl, r2]
    exact finish_fst_of_spin _
      (ip_loop4_full_range_spin _ _ _ (logged_ok _ (fun _ _ _ => rfl)) _ _ _ _ (by decide))
  · rw [adt4_eq_ip_loop4 _ _ _ _ _ (by decide) rfl, finish_snd]
    simp [ip_loop4, port_loop, addr_range4, param4, logged, set4_accept, ipset.logged, accept,
      ntohl_htonl, ntohs_htons]

/-- C5 — fail-fast without rollback, evaluated where no call returns nonzero but the range
wraps: with a handler that always returns 0, `hash_ipport_adt6` over ports 0..65535 and
`hash_ipport_adt4` over the addresses 255.255.255.254..255.255.255.255 do not return
`EDPVS_OK` within any iteration budget. -/
theorem no_failure_yet_no_result (IPSET_MAXCOMLEN fuel : Nat) :
    (∀ (s : Unit) (e : elem6_t) (fl : Nat), (accept s e fl).2 = 0)
    ∧ (∀ (s : Unit) (e : elem4_t) (fl : Nat), (accept s e fl).2 = 0)
    ∧ (hash_ipport_adt6 IPSET_MAXCOMLEN fuel IPSET_OP_DEL set6_accept
        (param6 0 65535)).1 ≠ some EDPVS_OK
    ∧ (hash_ipport_adt4 IPSET_MAXCOMLEN fuel IPSET_OP_DEL set4_accept
        (param4 4294967294 4294967295 80 81 0)).1 ≠ some EDPVS_OK := by
  have r1 : addr_range4 (param4 4294967294 4294967295 80 81 0) = (4294967294, 4294967295) := by
    decide
  refine ⟨fun _ _ _ => rfl, fun _ _ _ => rfl, ?_, ?_⟩
  · have h : (hash_ipport_adt6 IPSET_MAXCOMLEN fuel IPSET_OP_DEL set6_accept
        (param6 0 65535)).1 = none := by
      rw [adt6_eq_port_loop _ _ _ _ _ (by decide) rfl]
      exact finish_fst_of_spin _
        (port_loop_full_range_spin _ _ _ _ (fun _ _ _ => rfl) _ _ _ (by decide))
    rw [h]
    simp
  · have h : (hash_ipport_adt4 IPSET_MAXCOMLEN fuel IPSET_OP_DEL set4_accept
        (param4 4294967294 4294967295 80 81 0)).1 = none := by
      rw [adt4_eq_ip_loop4 _ _ _ _ _ (by decide) rfl, r1]
      exact finish_fst_of_spin _
        (ip_loop4_full_range_spin _ _ _ (fun _ _ _ => rfl) _ _ _ _ (by decide))
    rw [h]
    simp

/-- C6 — family isolation: for every opcode and every parameter whose `option.family`
differs from the family of the set, `hash_ipport_adt4` and `hash_ipport_adt6` return
`EDPVS_INVAL`, make no handler call and leave the table as it was. -/
theorem family_isolation {σ τ : Type} (IPSET_MAXCOMLEN fuel : Nat) (opcode : ipset_op)
    (set4 : ipset σ elem4_t) (set6 : ipset τ elem6_t) (p4 p6 : ipset_param)
    (h4 : set4.family ≠ p4.family) (h6 : set6.family ≠ p6.family) :
    hash_ipport_adt4 IPSET_MAXCOMLEN fuel opcode set4.logged p4
        = (some EDPVS_INVAL, (set4.table, []))
    ∧ hash_ipport_adt6 IPSET_MAXCOMLEN fuel opcode set6.logged p6
        = (some EDPVS_INVAL, (set6.table, [])) := by
  have e4 : set4.logged.family = set4.family := rfl
  have e6 : set6.logged.family = set6.family := rfl
  constructor
  · simp only [hash_ipport_adt4, e4, ne_eq, h4, not_false_eq_true, if_true]
    rfl
  · simp only [hash_ipport_adt6, e6, ne_eq, h6, not_false_eq_true, if_true]
    rfl

theorem family_isolation_witness :
    hash_ipport_adt4 32 4 IPSET_OP_ADD set4_accept.logged (param6 80 81)
        = (some EDPVS_INVAL, ((), []))
    ∧ hash_ipport_adt6 32 4 IPSET_OP_ADD set6_accept.logged
        (param4 167772161 167772162 80 81 0) = (some EDPVS_INVAL, ((), [])) :=
  family_isolation 32 4 IPSET_OP_ADD set4_accept set6_accept (param6 80 81)
    (param4 167772161 167772162 80 81 0) (by decide) (by decide)

/-- C7, as stated, fails: an inverted port range and an inverted address range are not
reported as `EDPVS_INVAL`; the operation returns `EDPVS_OK`. -/
theorem inverted_range_not_rejected :
    (hash_ipport_adt4 32 4 IPSET_OP_ADD set4_accept.logged
        (param4 167772161 167772161 81 80 0)).1 ≠ some EDPVS_INVAL
    ∧ (hash_ipport_adt4 32 4 IPSET_OP_ADD set4_accept.logged
        (param4 167772162 167772161 80 80 0)).1 ≠ some EDPVS_INVAL
    ∧ (hash_ipport_adt6 32 4 IPSET_OP_ADD set6_accept.logged (param6 81 80)).1
        ≠ some EDPVS_INVAL := by
  decide

theorem expansion4_no_ports (comment : List Nat) (param : ipset_param) (lo n : Nat)
    (h : param.max_port < param.min_port) : expansion4 comment param lo n = [] := by
  have h0 : param.max_port + 1 - param.min_port = 0 := by omega
  simp [expansion4, h0]

/-- C7, amended — an inverted range is an empty range: for ADD or DEL with matching family,
if the port range is inverted (for IPv4 with a resolved address range that ends below
255.255.255.255) or, for IPv4 without CIDR, the address range is inverted, the operation
makes no handler call, leaves the table as it was and returns `EDPVS_OK`. -/
theorem inverted_range_is_empty {σ τ : Type} (IPSET_MAXCOMLEN fuel : Nat) (opcode : ipset_op)
    (set4 : ipset σ elem4_t) (set6 : ipset τ elem6_t) (p4 p6 : ipset_param)
    (hop : opcode = IPSET_OP_ADD ∨ opcode = IPSET_OP_DEL)
    (hfam4 : set4.family = p4.family) (hfam6 : set6.family = p6.family)
    (hfuel : 0 < fuel)
    (hinv4 : (p4.max_port < p4.min_port ∧ p4.min_port ≤ 65535
          ∧ (addr_range4 p4).2 < 4294967295
          ∧ (addr_range4 p4).2 + 1 - (addr_range4 p4).1 < fuel)
        ∨ (p4.cidr = 0
          ∧ ntohl p4.max_addr.in_s_addr < ntohl p4.min_addr.in_s_addr))
    (hinv6 : p6.max_port < p6.min_port) :
    hash_ipport_adt4 IPSET_MAXCOMLEN fuel opcode set4.logged p4
        = (some EDPVS_OK, (set4.table, []))
    ∧ hash_ipport_adt6 IPSET_MAXCOMLEN fuel opcode set6.logged p6
        = (some EDPVS_OK, (set6.table, [])) := by
  have hne : opcode ≠ IPSET_OP_TEST := by rcases hop with h | h <;> simp [h]
  obtain ⟨k, rfl⟩ : ∃ k, fuel = k + 1 := ⟨fuel - 1, by omega⟩
  constructor
  · rcases hinv4 with ⟨hp, hmin, hto, hbudget⟩ | ⟨hc, ha⟩
    · rw [adt4_eq_applyAll IPSET_MAXCOMLEN (k + 1) opcode set4.logged p4 hne hfam4 hmin
        (by omega) (Or.inr (by omega)) hto (by omega) hbudget,
        expansion4_no_ports _ _ _ _ hp]
      rfl
    · have hr : addr_range4 p4
          = (ntohl p4.min_addr.in_s_addr, ntohl p4.max_addr.in_s_addr) := by
        simp [addr_range4, hc]
      rw [adt4_eq_ip_loop4 IPSET_MAXCOMLEN (k + 1) opcode set4.logged p4 hne hfam4, hr,
        ip_loop4_exit _ _ _ _ _ _ _ _ (by simp only; omega)]
      rfl
  · rw [adt6_eq_port_loop IPSET_MAXCOMLEN (k + 1) opcode set6.logged p6 hne hfam6,
      port_loop_exit _ _ _ _ _ _ _ _ _ (by omega)]
    rfl

theorem inverted_range_is_empty_witness :
    hash_ipport_adt4 32 4 IPSET_OP_DEL set4_accept.logged (param4 167772161 167772162 81 80 0)
        = (some EDPVS_OK, ((), []))
    ∧ hash_ipport_adt6 32 4 IPSET_OP_DEL set6_accept.logged (param6 81 80)
        = (some EDPVS_OK, ((), [])) :=
  inverted_range_is_empty 32 4 IPSET_OP_DEL set4_accept set6_accept
    (param4 167772161 167772162 81 80 0) (param6 81 80) (Or.inr rfl) rfl rfl (by decide)
    (Or.inl (by decide)) (by decide)

/-- C8 — TEST through `adt` performs no range expansion: with matching family exactly one
handler call is made, on the element (`ip = range.min_addr` unchanged,
`port = htons range.min_port`, `proto = param.proto`, all-zero comment) with flag word 0,
and its result is returned unchanged; `range.max_addr`, `range.max_port`, `cidr`, `flag`
and `comment` of the parameter have no influence. -/
theorem adt_test_single_call {σ τ : Type} (IPSET_MAXCOMLEN fuel : Nat)
    (set4 : ipset σ elem4_t) (set6 : ipset τ elem6_t) (p4 p6 : ipset_param)
    (hfam4 : set4.family = p4.family) (hfam6 : set6.family = p6.family) :
    hash_ipport_adt4 IPSET_MAXCOMLEN fuel IPSET_OP_TEST set4.logged p4
        = (some (set4.adtfn IPSET_OP_TEST set4.table
              ⟨p4.min_addr.in_s_addr, htons p4.min_port, p4.proto,
                List.replicate IPSET_MAXCOMLEN 0⟩ 0).2,
            ((set4.adtfn IPSET_OP_TEST set4.table
              ⟨p4.min_addr.in_s_addr, htons p4.min_port, p4.proto,
                List.replicate IPSET_MAXCOMLEN 0⟩ 0).1,
             [(⟨p4.min_addr.in_s_addr, htons p4.min_port, p4.proto,
                List.replicate IPSET_MAXCOMLEN 0⟩, 0)]))
    ∧ (∀ (ma : inet_addr) (mp c fl : Nat) (cm : List Nat),
        hash_ipport_adt4 IPSET_MAXCOMLEN fuel IPSET_OP_TEST set4.logged
            { p4 with max_addr := ma, max_port := mp, cidr := c, flag := fl, comment := cm }
          = hash_ipport_adt4 IPSET_MAXCOMLEN fuel IPSET_OP_TEST set4.logged p4)
    ∧ hash_ipport_adt6 IPSET_MAXCOMLEN fuel IPSET_OP_TEST set6.logged p6
        = (some (set6.adtfn IPSET_OP_TEST set6.table
              ⟨p6.min_addr.in6, htons p6.min_port, p6.proto,
                List.replicate IPSET_MAXCOMLEN 0⟩ 0).2,
            ((set6.adtfn IPSET_OP_TEST set6.table
              ⟨p6.min_addr.in6, htons p6.min_port, p6.proto,
                List.replicate IPSET_MAXCOMLEN 0⟩ 0).1,
             [(⟨p6.min_addr.in6, htons p6.min_port, p6.proto,
                List.replicate IPSET_MAXCOMLEN 0⟩, 0)]))
    ∧ (∀ (ma : inet_addr) (mp c fl : Nat) (cm : List Nat),
        hash_ipport_adt6 IPSET_MAXCOMLEN fuel IPSET_OP_TEST set6.logged
            { p6 with max_addr := ma, max_port := mp, cidr := c, flag := fl, comment := cm }
          = hash_ipport_adt6 IPSET_MAXCOMLEN fuel IPSET_OP_TEST set6.logged p6) := by
  have e4 : set4.logged.family = p4.family := hfam4
  have e6 : set6.logged.family = p6.family := hfam6
  refine ⟨?_, ?_, ?_, ?_⟩
  · simp only [hash_ipport_adt4, e4, ne_eq, not_true_eq_false, if_false, if_true]
    rfl
  · intro ma mp c fl cm
    simp only [hash_ipport_adt4, e4, ne_eq, not_true_eq_false, if_false, if_true]
  · simp only [hash_ipport_adt6, e6, ne_eq, not_true_eq_false, if_false, if_true]
    rfl
  · intro ma mp c fl cm
    simp only [hash_ipport_adt6, e6, ne_eq, not_true_eq_false, if_false, if_true]

theorem adt_test_single_call_witness :
    (hash_ipport_adt4 32 0 IPSET_OP_TEST set4_accept.logged
        (param4 167772161 167772162 80 81 24)).2.2
      = [(⟨htonl 167772161, htons 80, 6, List.replicate 32 0⟩, 0)]
    ∧ (hash_ipport_adt6 32 0 IPSET_OP_TEST set6_accept.logged (param6 80 81)).2.2
      = [(⟨[0, 0, 0, 0, 0, 0, 0, 0, 0, 0, 0, 0, 0, 0, 0, 1], htons 80, 6,
            List.replicate 32 0⟩, 0)] := by
  have h := adt_test_single_call 32 0 set4_accept set6_accept
    (param4 167772161 167772162 80 81 24) (param6 80 81) rfl rfl
  exact ⟨congrArg (fun r => r.2.2) h.1, congrArg (fun r => r.2.2) h.2.2.1⟩

theorem memcmp_eq_zero_iff :
    ∀ (n : Nat) (a b : List Nat), a.length = n → b.length = n → (memcmp a b n = 0 ↔ a = b) := by
  intro n
  induction n with
  | zero =>
    intro a b ha hb
    rw [List.length_eq_zero] at ha hb
    simp [ha, hb, memcmp]
  | succ k ih =>
    intro a b ha hb
    cases a with
    | nil => simp at ha
    | cons x xs =>
      cases b with
      | nil => simp at hb
      | cons y ys =>
        simp only [List.length_cons, Nat.add_right_cancel_iff] at ha hb
        simp only [memcmp, List.cons.injEq]
        by_cases hxy : x = y
        · simp [hxy, ih xs ys ha hb]
        · simp only [hxy, if_false, false_and, iff_false]
          omega

theorem memcmp_self : ∀ (n : Nat) (a : List Nat), memcmp a a n = 0 := by
  intro n
  induction n with
  | zero => intro a; simp [memcmp]
  | succ k ih =>
    intro a
    cases a with
    | nil => simp [memcmp]
    | cons x xs => simp [memcmp, ih]

/-- C9 — element identity: `hash_ipport_data_equal4` and `hash_ipport_data_equal6` hold
exactly when address, port and protocol are identical (IPv6 addresses being 16 bytes), and
two records that differ only in their comment compare equal. -/
theorem data_equal_iff_identity (e1 e2 : elem4_t) (f1 f2 : elem6_t) (c1 c2 : List Nat)
    (h1 : f1.ip.length = 16) (h2 : f2.ip.length = 16) :
    (hash_ipport_data_equal4 e1 e2 = true
        ↔ e1.ip = e2.ip ∧ e1.port = e2.port ∧ e1.proto = e2.proto)
    ∧ hash_ipport_data_equal4 { e1 with comment := c1 } { e1 with comment := c2 } = true
    ∧ (hash_ipport_data_equal6 f1 f2 = true
        ↔ f1.ip = f2.ip ∧ f1.port = f2.port ∧ f1.proto = f2.proto)
    ∧ hash_ipport_data_equal6 { f1 with comment := c1 } { f1 with comment := c2 } = true := by
  refine ⟨?_, ?_, ?_, ?_⟩
  · simp [hash_ipport_data_equal4, and_assoc]
  · simp [hash_ipport_data_equal4]
  · simp [hash_ipport_data_equal6, and_assoc, memcmp_eq_zero_iff 16 f1.ip f2.ip h1 h2]
  · simp [hash_ipport_data_equal6, memcmp_self]

theorem data_equal_iff_identity_witness :
    hash_ipport_data_equal4 ⟨htonl 167772161, htons 80, 6, [65, 0]⟩
        ⟨htonl 167772161, htons 80, 6, [66, 0]⟩ = true
    ∧ hash_ipport_data_equal6 ⟨(param6 80 80).min_addr.in6, htons 80, 6, [65, 0]⟩
        ⟨(param6 80 80).min_addr.in6, htons 80, 6, [66, 0]⟩ = true := by
  have h := data_equal_iff_identity ⟨htonl 167772161, htons 80, 6, []⟩
    ⟨htonl 167772161, htons 80, 17, []⟩ ⟨(param6 80 80).min_addr.in6, htons 80, 6, []⟩
    ⟨(param6 80 80).min_addr.in6, htons 80, 17, []⟩ [65, 0] [66, 0] rfl rfl
  exact ⟨h.2.1, h.2.2.2⟩

theorem port_loop_log_grows {σ ε : Type} (f : ipset_adtfn σ ε) (setport : ε → Nat → ε)
    (min_port max_port flag : Nat) (e : ε) :
    ∀ (fuel port : Nat) (st : σ × List (ε × Nat)),
      st.2 <+: (port_loop (logged f) setport min_port max_port flag e fuel port st).2.2 := by
  intro fuel
  induction fuel with
  | zero => intro port st; exact List.prefix_refl _
  | succ k ih =>
    intro port st
    simp only [port_loop]
    split
    · split
      · exact List.prefix_append _ _
      · refine List.IsPrefix.trans ?_
          (ih ((port + 1) % 65536) (logged f st (setport e (htons port)) flag).1)
        exact List.prefix_append st.2 [(setport e (htons port), flag)]
    · exact List.prefix_refl _

theorem ip_loop4_log_grows {σ : Type} (f : ipset_adtfn σ elem4_t) (param : ipset_param)
    (ip_to fuel : Nat) :
    ∀ (n ip : Nat) (e : elem4_t) (st : σ × List (elem4_t × Nat)),
      st.2 <+: (ip_loop4 (logged f) param ip_to e fuel n ip st).2.2 := by
  intro n
  induction n with
  | zero => intro ip e st; exact List.prefix_refl _
  | succ k ih =>
    intro ip e st
    simp only [ip_loop4]
    split
    · have hp := port_loop_log_grows f (fun (x : elem4_t) p => { x with port := p })
        param.min_port param.max_port param.flag
        { ip := htonl ip, port := e.port, proto := param.proto, comment := e.comment }
        fuel param.min_port st
      split
      · next r s1 heq => rw [heq] at hp; exact hp
      · next s1 heq => rw [heq] at hp; exact hp
      · next s1 heq =>
        rw [heq] at hp
        exact List.IsPrefix.trans hp (ih _ _ _)
    · exact List.prefix_refl _

theorem port_loop_first_call {σ ε : Type} (f : ipset_adtfn σ ε) (setport : ε → Nat → ε)
    (min_port max_port flag : Nat) (e : ε) (h : min_port ≤ max_port) (k : Nat) (s : σ) :
    [(setport e (htons min_port), flag)]
      <+: (port_loop (logged f) setport min_port max_port flag e (k + 1) min_port (s, [])).2.2 := by
  have hc : min_port ≤ min_port ∧ min_port ≤ max_port := ⟨Nat.le_refl _, h⟩
  simp only [port_loop, hc, and_self, if_true]
  split
  · exact List.prefix_refl _
  · exact port_loop_log_grows f setport min_port max_port flag e k ((min_port + 1) % 65536)
      (logged f (s, []) (setport e (htons min_port)) flag).1

theorem ip_loop4_first_call {σ : Type} (f : ipset_adtfn σ elem4_t) (param : ipset_param)
    (ip_to : Nat) (e : elem4_t) (h : param.min_port ≤ param.max_port) (k n ip : Nat)
    (hip : ip ≤ ip_to) (s : σ) :
    [(({ ip := htonl ip, port := htons param.min_port, proto := param.proto,
         comment := e.comment } : elem4_t), param.flag)]
      <+: (ip_loop4 (logged f) param ip_to e (k + 1) (n + 1) ip (s, [])).2.2 := by
  simp only [ip_loop4, hip, if_true]
  have hp := port_loop_first_call f (fun (x : elem4_t) p => { x with port := p })
    param.min_port param.max_port param.flag
    { ip := htonl ip, port := e.port, proto := param.proto, comment := e.comment } h k s
  split
  · next r s1 heq => rw [heq] at hp; exact hp
  · next s1 heq => rw [heq] at hp; exact hp
  · next s1 heq =>
    rw [heq] at hp
    exact List.IsPrefix.trans hp (ip_loop4_log_grows _ _ _ _ _ _ _ _)

theorem head_of_log_start {α : Type} (x : α) (l : List α) (h : [x] <+: l) : l.head? = some x := by
  obtain ⟨t, rfl⟩ := h
  rfl

/-- C10 — add-then-list round trip of the element encoding: for every 32-bit address `a`
(network order), host-order port `p` and protocol `q`, the element that
`hash_ipport_adt4` hands to the handler for the single address `a` and the single port `p`
is listed by `hash_ipport_do_list4` with `addr = a`, `port = p` and `proto = q`; the same
holds for `hash_ipport_adt6` and `hash_ipport_do_list6` with a 16-byte address `a6`. -/
theorem add_then_list_round_trip {σ τ : Type} (IPSET_MAXCOMLEN fuel : Nat) (opcode : ipset_op)
    (set4 : ipset σ elem4_t) (set6 : ipset τ elem6_t) (a p q fl cidr6 : Nat)
    (a6 : List Nat) (other : inet_addr) (cm : List Nat) (member : ipset_member) (show_comment : Bool)
    (hop : opcode = IPSET_OP_ADD ∨ opcode = IPSET_OP_DEL)
    (ha : a < 4294967296) (hp : p < 65536) (hfuel : 0 < fuel) :
    ((hash_ipport_adt4 IPSET_MAXCOMLEN fuel opcode set4.logged
        { family := set4.family, min_addr := ⟨a, other.in6⟩, max_addr := ⟨a, other.in6⟩,
          min_port := p, max_port := p, cidr := 0, proto := q, flag := fl,
          comment := cm }).2.2.head?.map
      fun c => ((hash_ipport_do_list4 IPSET_MAXCOMLEN member c.1 show_comment).addr.in_s_addr,
        (hash_ipport_do_list4 IPSET_MAXCOMLEN member c.1 show_comment).port,
        (hash_ipport_do_list4 IPSET_MAXCOMLEN member c.1 show_comment).proto))
      = some (a, p, q)
    ∧ ((hash_ipport_adt6 IPSET_MAXCOMLEN fuel opcode set6.logged
        { family := set6.family, min_addr := ⟨other.in_s_addr, a6⟩, max_addr := other,
          min_port := p, max_port := p, cidr := cidr6, proto := q, flag := fl,
          comment := cm }).2.2.head?.map
      fun c => ((hash_ipport_do_list6 IPSET_MAXCOMLEN member c.1 show_comment).addr.in6,
        (hash_ipport_do_list6 IPSET_MAXCOMLEN member c.1 show_comment).port,
        (hash_ipport_do_list6 IPSET_MAXCOMLEN member c.1 show_comment).proto))
      = some (a6, p, q) := by
  have hne : opcode ≠ IPSET_OP_TEST := by rcases hop with h | h <;> simp [h]
  obtain ⟨k, rfl⟩ : ∃ k, fuel = k + 1 := ⟨fuel - 1, by omega⟩
  constructor
  · rw [adt4_eq_ip_loop4 _ _ _ _ _ hne rfl, finish_snd]
    have hr : addr_range4 (⟨set4.family, ⟨a, other.in6⟩, ⟨a, other.in6⟩, p, p, 0, q, fl, cm⟩ : ipset_param)
        = (ntohl a, ntohl a) := by
      simp [addr_range4]
    rw [hr]
    have hfirst := ip_loop4_first_call (set4.adtfn opcode)
      (⟨set4.family, ⟨a, other.in6⟩, ⟨a, other.in6⟩, p, p, 0, q, fl, cm⟩ : ipset_param) (ntohl a)
      ⟨0, 0, 0, elem_comment IPSET_MAXCOMLEN set4.logged.comment opcode
        (⟨set4.family, ⟨a, other.in6⟩, ⟨a, other.in6⟩, p, p, 0, q, fl, cm⟩ : ipset_param)⟩
      (Nat.le_refl _) k k (ntohl a) (Nat.le_refl _) set4.table
    have hh := head_of_log_start _ _ hfirst
    have e1 : set4.logged.adtfn opcode = logged (set4.adtfn opcode) := rfl
    have e2 : set4.logged.table = (set4.table, []) := rfl
    rw [e1, e2]
    simp only at hh ⊢
    rw [hh]
    cases show_comment <;>
      simp [hash_ipport_do_list4, htonl_ntohl a ha, ntohs_htons p hp]
  · rw [adt6_eq_port_loop _ _ _ _ _ hne rfl, finish_snd]
    have hfirst := port_loop_first_call (set6.adtfn opcode)
      (fun (x : elem6_t) p => { x with port := p }) p p fl
      ⟨a6, 0, q, elem_comment IPSET_MAXCOMLEN set6.logged.comment opcode
        (⟨set6.family, ⟨other.in_s_addr, a6⟩, other, p, p, cidr6, q, fl, cm⟩ : ipset_param)⟩
      (Nat.le_refl _) k set6.table
    have hh := head_of_log_start _ _ hfirst
    have e1 : set6.logged.adtfn opcode = logged (set6.adtfn opcode) := rfl
    have e2 : set6.logged.table = (set6.table, []) := rfl
    rw [e1, e2]
    simp only at hh ⊢
    rw [hh]
    cases show_comment <;>
      simp [hash_ipport_do_list6, ntohs_htons p hp]

theorem add_then_list_round_trip_witness :
    ((hash_ipport_adt4 32 1 IPSET_OP_ADD set4_accept.logged
        { family := set4_accept.family, min_addr := ⟨4294967295, []⟩,
          max_addr := ⟨4294967295, []⟩, min_port := 65535, max_port := 65535, cidr := 0,
          proto := 17, flag := 0, comment := [] }).2.2.head?.map
      fun c => ((hash_ipport_do_list4 32 ⟨⟨0, []⟩, 0, 0, []⟩ c.1 false).addr.in_s_addr,
        (hash_ipport_do_list4 32 ⟨⟨0, []⟩, 0, 0, []⟩ c.1 false).port,
        (hash_ipport_do_list4 32 ⟨⟨0, []⟩, 0, 0, []⟩ c.1 false).proto))
      = some (4294967295, 65535, 17) :=
  (add_then_list_round_trip 32 1 IPSET_OP_ADD set4_accept set6_accept 4294967295 65535 17 0 0
    [] ⟨0, []⟩ [] ⟨⟨0, []⟩, 0, 0, []⟩ false (Or.inl rfl) (by decide) (by decide)
    (by decide)).1

theorem adt6_eq_applyAll {σ : Type} (IPSET_MAXCOMLEN fuel : Nat) (opcode : ipset_op)
    (set : ipset σ elem6_t) (param : ipset_param)
    (hop : opcode ≠ IPSET_OP_TEST) (hfam : set.family = param.family)
    (hmin : param.min_port ≤ 65535) (hmax : param.max_port ≤ 65535)
    (hwrap : param.max_port < 65535 ∨ 0 < param.min_port)
    (hfuel : param.max_port + 1 - param.min_port < fuel) :
    hash_ipport_adt6 IPSET_MAXCOMLEN fuel opcode set param
      = finish (applyAll (set.adtfn opcode) param.flag
          ((List.range' param.min_port (param.max_port + 1 - param.min_port)).map fun p =>
            ({ ip := param.min_addr.in6, port := htons p, proto := param.proto,
               comment := elem_comment IPSET_MAXCOMLEN set.comment opcode param } : elem6_t))
          set.table) := by
  rw [adt6_eq_port_loop _ _ _ _ _ hop hfam,
    port_loop_eq_applyAll _ _ _ _ _ _ hmin hmax hwrap fuel hfuel]
  rfl

theorem applyAll_logged_next {σ ε : Type} (f : ipset_adtfn σ ε) (flag : Nat) :
    ∀ (l : List ε) (s : σ) (log : List (ε × Nat)), (applyAll f flag l s).1 = Flow.next →
      applyAll (logged f) flag l (s, log)
        = (Flow.next, ((applyAll f flag l s).2, log ++ l.map fun e => (e, flag))) := by
  intro l
  induction l with
  | nil => intro s log _; simp [applyAll]
  | cons x xs ih =>
    intro s log h
    simp only [applyAll] at h ⊢
    by_cases hx : (f s x flag).2 = 0
    · simp only [hx, ne_eq, not_true_eq_false, if_false] at h
      simp only [logged, hx, ne_eq, not_true_eq_false, if_false]
      rw [ih _ _ h]
      simp
    · simp [hx] at h

/-- Fail-fast application: when every element of `pre` is accepted and the next element `x`
is answered with `r ≠ 0`, the instrumented run stops with `r` after exactly the calls
`pre ++ [x]`; nothing of `post` is applied and no further call is made. -/
theorem applyAll_logged_first_failure {σ ε : Type} (f : ipset_adtfn σ ε) (flag : Nat)
    (pre : List ε) (x : ε) (post : List ε) (s : σ) (r : Int)
    (hpre : (applyAll f flag pre s).1 = Flow.next)
    (hx : (f (applyAll f flag pre s).2 x flag).2 = r) (hr : r ≠ 0) :
    applyAll (logged f) flag (pre ++ x :: post) (s, [])
      = (Flow.ret r, ((f (applyAll f flag pre s).2 x flag).1,
          (pre ++ [x]).map fun e => (e, flag))) := by
  rw [applyAll_append, applyAll_logged_next f flag pre s [] hpre]
  simp only [Flow.andThen, applyAll, logged, hx, ne_eq, hr, not_false_eq_true, if_true]
  simp

/-- Fail-fast without rollback for `hash_ipport_adt4` on ranges that do not reach the top
of the address or port space: if the expansion is `pre ++ x :: post`, the handler accepts
every element of `pre` and answers `x` with `r ≠ 0`, then the operation returns `r` and
has made exactly the calls `pre ++ [x]`. -/
theorem adt4_fail_fast {σ : Type} (IPSET_MAXCOMLEN fuel : Nat) (opcode : ipset_op)
    (set : ipset σ elem4_t) (param : ipset_param)
    (hop : opcode ≠ IPSET_OP_TEST) (hfam : set.family = param.family)
    (hmin : param.min_port ≤ 65535) (hmax : param.max_port ≤ 65535)
    (hwrap : param.max_port < 65535 ∨ 0 < param.min_port)
    (hto : (addr_range4 param).2 < 4294967295)
    (hfuel : param.max_port + 1 - param.min_port < fuel)
    (hbudget : (addr_range4 param).2 + 1 - (addr_range4 param).1 < fuel)
    (pre : List elem4_t) (x : elem4_t) (post : List elem4_t) (r : Int)
    (hexp : expansion4 (elem_comment IPSET_MAXCOMLEN set.comment opcode param) param
        (addr_range4 param).1 ((addr_range4 param).2 + 1 - (addr_range4 param).1)
      = pre ++ x :: post)
    (hpre : (applyAll (set.adtfn opcode) param.flag pre set.table).1 = Flow.next)
    (hx : (set.adtfn opcode (applyAll (set.adtfn opcode) param.flag pre set.table).2 x
        param.flag).2 = r)
    (hr : r ≠ 0) :
    hash_ipport_adt4 IPSET_MAXCOMLEN fuel opcode set.logged param
      = (some r, ((set.adtfn opcode (applyAll (set.adtfn opcode) param.flag pre set.table).2 x
            param.flag).1,
          (pre ++ [x]).map fun e => (e, param.flag))) := by
  have h := adt4_eq_applyAll IPSET_MAXCOMLEN fuel opcode set.logged param hop hfam hmin hmax
    hwrap hto hfuel hbudget
  have e1 : set.logged.adtfn opcode = logged (set.adtfn opcode) := rfl
  have e2 : set.logged.table = (set.table, []) := rfl
  have e3 : set.logged.comment = set.comment := rfl
  rw [e1, e2, e3, hexp, applyAll_logged_first_failure _ _ pre x post _ r hpre hx hr] at h
  exact h

/-- Fail-fast without rollback for `hash_ipport_adt6` on port ranges other than
0..65535. -/
theorem adt6_fail_fast {σ : Type} (IPSET_MAXCOMLEN fuel : Nat) (opcode : ipset_op)
    (set : ipset σ elem6_t) (param : ipset_param)
    (hop : opcode ≠ IPSET_OP_TEST) (hfam : set.family = param.family)
    (hmin : param.min_port ≤ 65535) (hmax : param.max_port ≤ 65535)
    (hwrap : param.max_port < 65535 ∨ 0 < param.min_port)
    (hfuel : param.max_port + 1 - param.min_port < fuel)
    (pre : List elem6_t) (x : elem6_t) (post : List elem6_t) (r : Int)
    (hexp : ((List.range' param.min_port (param.max_port + 1 - param.min_port)).map fun p =>
        ({ ip := param.min_addr.in6, port := htons p, proto := param.proto,
           comment := elem_comment IPSET_MAXCOMLEN set.comment opcode param } : elem6_t))
      = pre ++ x :: post)
    (hpre : (applyAll (set.adtfn opcode) param.flag pre set.table).1 = Flow.next)
    (hx : (set.adtfn opcode (applyAll (set.adtfn opcode) param.flag pre set.table).2 x
        param.flag).2 = r)
    (hr : r ≠ 0) :
    hash_ipport_adt6 IPSET_MAXCOMLEN fuel opcode set.logged param
      = (some r, ((set.adtfn opcode (applyAll (set.adtfn opcode) param.flag pre set.table).2 x
            param.flag).1,
          (pre ++ [x]).map fun e => (e, param.flag))) := by
  have h := adt6_eq_applyAll IPSET_MAXCOMLEN fuel opcode set.logged param hop hfam hmin hmax
    hwrap hfuel
  have e1 : set.logged.adtfn opcode = logged (set.adtfn opcode) := rfl
  have e2 : set.logged.table = (set.table, []) := rfl
  have e3 : set.logged.comment = set.comment := rfl
  rw [e1, e2, e3, hexp, applyAll_logged_first_failure _ _ pre x post _ r hpre hx hr] at h
  exact h

/-- The port loop up to 65535 when `min_port ≥ 1`: the wrapped counter 0 fails the guard
`port >= min_port`, so `hash_ipport_adt6` returns `EDPVS_OK` after one call for each port
of `min_port .. 65535`, `65535 - min_port + 1` calls in all. -/
theorem adt6_ports_upto_65535 {σ : Type} (IPSET_MAXCOMLEN fuel : Nat) (opcode : ipset_op)
    (set : ipset σ elem6_t) (param : ipset_param)
    (hop : opcode ≠ IPSET_OP_TEST) (hfam : set.family = param.family)
    (hmin : 1 ≤ param.min_port) (hle : param.min_port ≤ 65535) (hmax : param.max_port = 65535)
    (hok : ∀ s e fl, (set.adtfn opcode s e fl).2 = 0)
    (hfuel : 65535 - param.min_port + 1 < fuel) :
    (hash_ipport_adt6 IPSET_MAXCOMLEN fuel opcode set.logged param).1 = some EDPVS_OK
    ∧ (hash_ipport_adt6 IPSET_MAXCOMLEN fuel opcode set.logged param).2.2.map
          (fun c => c.1.port)
        = (List.range' param.min_port (65535 - param.min_port + 1)).map htons
    ∧ (hash_ipport_adt6 IPSET_MAXCOMLEN fuel opcode set.logged param).2.2.length
        = 65535 - param.min_port + 1 := by
  have h := adt6_eq_applyAll IPSET_MAXCOMLEN fuel opcode set.logged param hop hfam hle
    (by omega) (Or.inr (by omega)) (by omega)
  have e1 : set.logged.adtfn opcode = logged (set.adtfn opcode) := rfl
  have e2 : set.logged.table = (set.table, []) := rfl
  have hn : param.max_port + 1 - param.min_port = 65535 - param.min_port + 1 := by omega
  rw [e1, e2, applyAll_logged_ok _ _ hok, hn] at h
  rw [h]
  refine ⟨rfl, ?_, ?_⟩
  · simp [finish, Function.comp_def]
  · simp [finish]

theorem mask_from_to_bits (ip cidr : Nat) :
    (ip_set_mask_from_to ip cidr).1 = (ip >>> (32 - cidr)) <<< (32 - cidr)
    ∧ (ip_set_mask_from_to ip cidr).2
        = (ip_set_mask_from_to ip cidr).1 ||| (2 ^ (32 - cidr) - 1) := by
  have hpos : 0 < 2 ^ (32 - cidr) := Nat.pow_pos (by decide)
  have hlow : ip - ip % 2 ^ (32 - cidr) = 2 ^ (32 - cidr) * (ip / 2 ^ (32 - cidr)) := by
    have := Nat.div_add_mod ip (2 ^ (32 - cidr))
    omega
  constructor
  · simp only [ip_set_mask_from_to, Nat.shiftRight_eq_div_pow, Nat.shiftLeft_eq, hlow]
    exact Nat.mul_comm _ _
  · simp only [ip_set_mask_from_to, hlow]
    exact Nat.mul_add_lt_is_or (by omega) _

/-! ## Dataplane test, creation, hashing and comments -/

theorem mbuf_header_pointer_ports (mbuf : List Nat) (off : Nat) (h : off + 4 ≤ mbuf.length) :
    mbuf_header_pointer mbuf off 4 = some ((mbuf.drop off).take 4) := by
  simp [mbuf_header_pointer, h]

theorem load_u16_ports (mbuf : List Nat) (off i : Nat) (hi : i < 2) :
    load_u16 ((mbuf.drop off).take 4) i
      = mbuf.getD (off + 2 * i) 0 + 256 * mbuf.getD (off + 2 * i + 1) 0 := by
  have h1 : 2 * i < 4 := by omega
  have h2 : 2 * i + 1 < 4 := by omega
  simp [load_u16, List.getD_eq_getElem?_getD, List.getElem?_take, List.getElem?_drop, h1, h2,
    Nat.add_assoc]

/-- C11 — the dataplane test selects the tuple by direction: when the four bytes of the two
port fields at the L4 offset can be read, `hash_ipport_test4` and `hash_ipport_test6` make
exactly one call, with opcode TEST and flag word 0, on the element (source address, first
port field, packet protocol) for direction 1 and (destination address, second port field,
packet protocol) for direction 0, the port being the 16-bit value whose bytes are those of
the packet and the comment all zero; the result of that call is returned unchanged, and no
ADD or DEL handler is called. -/
theorem test_selects_by_direction {σ τ : Type} (IPSET_MAXCOMLEN : Nat)
    (set4 : ipset σ elem4_t) (set6 : ipset τ elem6_t) (iph : dp_vs_iphdr) (mbuf : List Nat)
    (hread : iph.len + 4 ≤ mbuf.length) :
    hash_ipport_test4 IPSET_MAXCOMLEN set4.traced ⟨1, iph, mbuf⟩
        = some (((set4.adtfn IPSET_OP_TEST set4.table
              ⟨iph.saddr.in_s_addr, mbuf.getD iph.len 0 + 256 * mbuf.getD (iph.len + 1) 0,
                iph.proto, List.replicate IPSET_MAXCOMLEN 0⟩ 0).1,
            [(IPSET_OP_TEST,
              ⟨iph.saddr.in_s_addr, mbuf.getD iph.len 0 + 256 * mbuf.getD (iph.len + 1) 0,
                iph.proto, List.replicate IPSET_MAXCOMLEN 0⟩, 0)]),
          (set4.adtfn IPSET_OP_TEST set4.table
              ⟨iph.saddr.in_s_addr, mbuf.getD iph.len 0 + 256 * mbuf.getD (iph.len + 1) 0,
                iph.proto, List.replicate IPSET_MAXCOMLEN 0⟩ 0).2)
    ∧ hash_ipport_test4 IPSET_MAXCOMLEN set4.traced ⟨0, iph, mbuf⟩
        = some (((set4.adtfn IPSET_OP_TEST set4.table
              ⟨iph.daddr.in_s_addr,
                mbuf.getD (iph.len + 2) 0 + 256 * mbuf.getD (iph.len + 3) 0,
                iph.proto, List.replicate IPSET_MAXCOMLEN 0⟩ 0).1,
            [(IPSET_OP_TEST,
              ⟨iph.daddr.in_s_addr,
                mbuf.getD (iph.len + 2) 0 + 256 * mbuf.getD (iph.len + 3) 0,
                iph.proto, List.replicate IPSET_MAXCOMLEN 0⟩, 0)]),
          (set4.adtfn IPSET_OP_TEST set4.table
              ⟨iph.daddr.in_s_addr,
                mbuf.getD (iph.len + 2) 0 + 256 * mbuf.getD (iph.len + 3) 0,
                iph.proto, List.replicate IPSET_MAXCOMLEN 0⟩ 0).2)
    ∧ hash_ipport_test6 IPSET_MAXCOMLEN set6.traced ⟨1, iph, mbuf⟩
        = some (((set6.adtfn IPSET_OP_TEST set6.table
              ⟨iph.saddr.in6, mbuf.getD iph.len 0 + 256 * mbuf.getD (iph.len + 1) 0,
                iph.proto, List.replicate IPSET_MAXCOMLEN 0⟩ 0).1,
            [(IPSET_OP_TEST,
              ⟨iph.saddr.in6, mbuf.getD iph.len 0 + 256 * mbuf.getD (iph.len + 1) 0,
                iph.proto, List.replicate IPSET_MAXCOMLEN 0⟩, 0)]),
          (set6.adtfn IPSET_OP_TEST set6.table
              ⟨iph.saddr.in6, mbuf.getD iph.len 0 + 256 * mbuf.getD (iph.len + 1) 0,
                iph.proto, List.replicate IPSET_MAXCOMLEN 0⟩ 0).2)
    ∧ hash_ipport_test6 IPSET_MAXCOMLEN set6.traced ⟨0, iph, mbuf⟩
        = some (((set6.adtfn IPSET_OP_TEST set6.table
              ⟨iph.daddr.in6,
                mbuf.getD (iph.len + 2) 0 + 256 * mbuf.getD (iph.len + 3) 0,
                iph.proto, List.replicate IPSET_MAXCOMLEN 0⟩ 0).1,
            [(IPSET_OP_TEST,
              ⟨iph.daddr.in6,
                mbuf.getD (iph.len + 2) 0 + 256 * mbuf.getD (iph.len + 3) 0,
                iph.proto, List.replicate IPSET_MAXCOMLEN 0⟩, 0)]),
          (set6.adtfn IPSET_OP_TEST set6.table
              ⟨iph.daddr.in6,
                mbuf.getD (iph.len + 2) 0 + 256 * mbuf.getD (iph.len + 3) 0,
                iph.proto, List.replicate IPSET_MAXCOMLEN 0⟩ 0).2)
    ∧ ((∀ b ∈ mbuf, b < 256) →
        ntohs (mbuf.getD iph.len 0 + 256 * mbuf.getD (iph.len + 1) 0)
            = 256 * mbuf.getD iph.len 0 + mbuf.getD (iph.len + 1) 0
        ∧ ntohs (mbuf.getD (iph.len + 2) 0 + 256 * mbuf.getD (iph.len + 3) 0)
            = 256 * mbuf.getD (iph.len + 2) 0 + mbuf.getD (iph.len + 3) 0) := by
  have hp := mbuf_header_pointer_ports mbuf iph.len hread
  have h0 := load_u16_ports mbuf iph.len 0 (by decide)
  have h1 := load_u16_ports mbuf iph.len 1 (by decide)
  simp only [Nat.mul_zero, Nat.add_zero, Nat.mul_one] at h0 h1
  refine ⟨?_, ?_, ?_, ?_, ?_⟩
  · simp only [hash_ipport_test4, hp, h0, if_true]
    rfl
  · simp only [hash_ipport_test4, hp, h1, Nat.zero_ne_one, if_false]
    rfl
  · simp only [hash_ipport_test6, hp, h0, if_true]
    rfl
  · simp only [hash_ipport_test6, hp, h1, Nat.zero_ne_one, if_false]
    rfl
  · intro hb
    have hget : ∀ i, mbuf.getD i 0 < 256 := by
      intro i
      rw [List.getD_eq_getElem?_getD]
      cases hi : mbuf[i]? with
      | none => simp
      | some v => simpa using hb v (List.getElem?_mem hi)
    have a0 := hget iph.len
    have a1 := hget (iph.len + 1)
    have a2 := hget (iph.len + 2)
    have a3 := hget (iph.len + 3)
    simp only [ntohs, bswap16]
    omega

theorem test_selects_by_direction_witness :
    hash_ipport_test4 32 set4_accept.traced
        ⟨1, ⟨2, 6, ⟨htonl 167772161, []⟩, ⟨htonl 167772162, []⟩⟩, [69, 0, 4, 210, 0, 80]⟩
      = some (((), [(IPSET_OP_TEST, ⟨htonl 167772161, 4 + 256 * 210, 6, List.replicate 32 0⟩,
          0)]), 0) :=
  (test_selects_by_direction 32 set4_accept set6_accept
    ⟨2, 6, ⟨htonl 167772161, []⟩, ⟨htonl 167772162, []⟩⟩ [69, 0, 4, 210, 0, 80]
    (by decide)).1

/-- C12 — a short packet view, evaluated on a packet of 22 bytes whose L4 header starts at
offset 20 (only two of the four port bytes are present): `mbuf_header_pointer` yields no
pointer, `hash_ipport_test4` and `hash_ipport_test6` read `ports[0]` or `ports[1]` through
it all the same, for every direction, and no no-match result is produced. -/
theorem short_packet_faults (IPSET_MAXCOMLEN direction : Nat) (src dst : inet_addr) :
    mbuf_header_pointer (List.replicate 22 0) 20 4 = none
    ∧ hash_ipport_test4 IPSET_MAXCOMLEN set4_accept
        ⟨direction, ⟨20, 17, src, dst⟩, List.replicate 22 0⟩ = none
    ∧ hash_ipport_test6 IPSET_MAXCOMLEN set6_accept
        ⟨direction, ⟨20, 17, src, dst⟩, List.replicate 22 0⟩ = none := by
  have hp : mbuf_header_pointer (List.replicate 22 0) 20 4 = none := by decide
  refine ⟨hp, ?_, ?_⟩
  · simp only [hash_ipport_test4, hp]
    split <;> rfl
  · simp only [hash_ipport_test6, hp]
    split <;> rfl

theorem elem4_layout (IPSET_MAXCOMLEN : Nat) :
    c_offsets 0 (elem4_members IPSET_MAXCOMLEN) = [0, 4, 6, 7]
    ∧ c_sizeof (elem4_members IPSET_MAXCOMLEN) = (7 + IPSET_MAXCOMLEN + 3) / 4 * 4 := by
  constructor
  · simp [c_offsets, elem4_members, align_up]
  · simp [c_sizeof, c_end, elem4_members, align_up]

theorem elem6_layout (IPSET_MAXCOMLEN : Nat) :
    c_offsets 0 (elem6_members IPSET_MAXCOMLEN) = [0, 16, 18, 19]
    ∧ c_sizeof (elem6_members IPSET_MAXCOMLEN) = (19 + IPSET_MAXCOMLEN + 3) / 4 * 4 := by
  constructor
  · simp [c_offsets, elem6_members, align_up]
  · simp [c_sizeof, c_end, elem6_members, align_up]

theorem le_bytes_length : ∀ (w x : Nat), (le_bytes w x).length = w := by
  intro w
  induction w with
  | zero => intro x; rfl
  | succ k ih => intro x; simp [le_bytes, ih]

theorem c_array_length (n : Nat) (l : List Nat) : (c_array n l).length = n := by
  simp [c_array]

theorem c_array_of_length (n : Nat) (l : List Nat) (h : l.length = n) : c_array n l = l := by
  subst h
  simp [c_array]

theorem c_array_take (n k : Nat) (a b : List Nat) (ha : a.length = k) (hk : k ≤ n) :
    (c_array n (a ++ b)).take k = a := by
  subst ha
  simp [c_array, List.take_take, Nat.min_eq_left hk, List.append_assoc]

theorem elem4_image_head (IPSET_MAXCOMLEN : Nat) (e : elem4_t) :
    (elem4_image IPSET_MAXCOMLEN e).take 7
      = le_bytes 4 e.ip ++ le_bytes 2 e.port ++ le_bytes 1 e.proto := by
  unfold elem4_image
  rw [(elem4_layout IPSET_MAXCOMLEN).2]
  exact c_array_take _ 7 _ _ (by simp [le_bytes_length]) (by omega)

theorem elem6_image_head (IPSET_MAXCOMLEN : Nat) (e : elem6_t) :
    (elem6_image IPSET_MAXCOMLEN e).take 19
      = c_array 16 e.ip ++ le_bytes 2 e.port ++ le_bytes 1 e.proto := by
  unfold elem6_image
  rw [(elem6_layout IPSET_MAXCOMLEN).2]
  exact c_array_take _ 19 _ _ (by simp [le_bytes_length, c_array_length]) (by omega)

theorem le_bytes4_inj (x y : Nat) (hx : x < 4294967296) (hy : y < 4294967296)
    (h : le_bytes 4 x = le_bytes 4 y) : x = y := by
  simp only [le_bytes, List.cons.injEq, and_true] at h
  omega

theorem le_bytes2_inj (x y : Nat) (hx : x < 65536) (hy : y < 65536)
    (h : le_bytes 2 x = le_bytes 2 y) : x = y := by
  simp only [le_bytes, List.cons.injEq, and_true] at h
  omega

theorem le_bytes1_inj (x y : Nat) (hx : x < 256) (hy : y < 256)
    (h : le_bytes 1 x = le_bytes 1 y) : x = y := by
  simp only [le_bytes, List.cons.injEq, and_true] at h
  omega

theorem append_inj_three (a b c a' b' c' : List Nat) (ha : a.length = a'.length)
    (hb : b.length = b'.length) (h : a ++ b ++ c = a' ++ b' ++ c') :
    a = a' ∧ b = b' ∧ c = c' := by
  rw [List.append_assoc, List.append_assoc] at h
  obtain ⟨h1, h2⟩ := List.append_inj h ha
  obtain ⟨h3, h4⟩ := List.append_inj h2 hb
  exact ⟨h1, h3, h4⟩

/-- C13 — hashable-prefix layout: `hash_ipport_create` sets `hash_len` to the offset of
the comment member, 7 for IPv4 and 19 for IPv6, and `hash_len < dsize`; the identity
members fill the bytes `[0, hash_len)` of the record without a gap, so two records (with
32-bit address or 16-byte address, 16-bit port, 8-bit protocol) compare equal exactly when
their first `hash_len` bytes are identical, and the comment has no influence on those
bytes. -/
theorem hash_len_layout {σ : Type} (IPSET_MAXCOMLEN : Nat)
    (hash_create : σ → ipset_param → σ × Int) (table : σ) (param : ipset_param)
    (e1 e2 : elem4_t) (f1 f2 : elem6_t) (c : List Nat)
    (h1 : e1.ip < 4294967296 ∧ e1.port < 65536 ∧ e1.proto < 256)
    (h2 : e2.ip < 4294967296 ∧ e2.port < 65536 ∧ e2.proto < 256)
    (g1 : f1.ip.length = 16 ∧ f1.port < 65536 ∧ f1.proto < 256)
    (g2 : f2.ip.length = 16 ∧ f2.port < 65536 ∧ f2.proto < 256) :
    (param.family = AF_INET →
        (hash_ipport_create IPSET_MAXCOMLEN hash_create table param).2.hash_len = 7
        ∧ (hash_ipport_create IPSET_MAXCOMLEN hash_create table param).2.hash_len
            < (hash_ipport_create IPSET_MAXCOMLEN hash_create table param).2.dsize
        ∧ (hash_ipport_create IPSET_MAXCOMLEN hash_create table param).2.dsize
            = (elem4_image IPSET_MAXCOMLEN e1).length)
    ∧ (param.family = AF_INET6 →
        (hash_ipport_create IPSET_MAXCOMLEN hash_create table param).2.hash_len = 19
        ∧ (hash_ipport_create IPSET_MAXCOMLEN hash_create table param).2.hash_len
            < (hash_ipport_create IPSET_MAXCOMLEN hash_create table param).2.dsize
        ∧ (hash_ipport_create IPSET_MAXCOMLEN hash_create table param).2.dsize
            = (elem6_image IPSET_MAXCOMLEN f1).length)
    ∧ (elem4_image IPSET_MAXCOMLEN e1).take 7
        = le_bytes 4 e1.ip ++ le_bytes 2 e1.port ++ le_bytes 1 e1.proto
    ∧ (elem6_image IPSET_MAXCOMLEN f1).take 19
        = f1.ip ++ le_bytes 2 f1.port ++ le_bytes 1 f1.proto
    ∧ (hash_ipport_data_equal4 e1 e2 = true
        ↔ (elem4_image IPSET_MAXCOMLEN e1).take 7 = (elem4_image IPSET_MAXCOMLEN e2).take 7)
    ∧ (hash_ipport_data_equal6 f1 f2 = true
        ↔ (elem6_image IPSET_MAXCOMLEN f1).take 19 = (elem6_image IPSET_MAXCOMLEN f2).take 19)
    ∧ (elem4_image IPSET_MAXCOMLEN { e1 with comment := c }).take 7
        = (elem4_image IPSET_MAXCOMLEN e1).take 7
    ∧ (elem6_image IPSET_MAXCOMLEN { f1 with comment := c }).take 19
        = (elem6_image IPSET_MAXCOMLEN f1).take 19 := by
  have l4 := elem4_layout IPSET_MAXCOMLEN
  have l6 := elem6_layout IPSET_MAXCOMLEN
  have hfam : AF_INET6 ≠ AF_INET := by decide
  refine ⟨?_, ?_, elem4_image_head _ _, ?_, ?_, ?_, ?_, ?_⟩
  · intro hf
    simp only [hash_ipport_create, hf, if_true, l4.1, l4.2, elem4_image, c_array_length]
    simp only [List.getD_cons_succ, List.getD_cons_zero, and_true, true_and]
    omega
  · intro hf
    simp only [hash_ipport_create, hf, hfam, if_false, l6.1, l6.2, elem6_image,
      c_array_length]
    simp only [List.getD_cons_succ, List.getD_cons_zero, and_true, true_and]
    omega
  · rw [elem6_image_head, c_array_of_length 16 f1.ip g1.1]
  · rw [elem4_image_head, elem4_image_head]
    constructor
    · intro h
      simp only [hash_ipport_data_equal4, Bool.and_eq_true, beq_iff_eq] at h
      rw [h.1.1, h.1.2, h.2]
    · intro h
      obtain ⟨a1, a2, a3⟩ := append_inj_three _ _ _ _ _ _
        (by simp [le_bytes_length]) (by simp [le_bytes_length]) h
      simp only [hash_ipport_data_equal4, Bool.and_eq_true, beq_iff_eq]
      exact ⟨⟨le_bytes4_inj _ _ h1.1 h2.1 a1, le_bytes2_inj _ _ h1.2.1 h2.2.1 a2⟩,
        le_bytes1_inj _ _ h1.2.2 h2.2.2 a3⟩
  · rw [elem6_image_head, elem6_image_head, c_array_of_length 16 f1.ip g1.1,
      c_array_of_length 16 f2.ip g2.1]
    constructor
    · intro h
      simp only [hash_ipport_data_equal6, Bool.and_eq_true, beq_iff_eq] at h
      rw [(memcmp_eq_zero_iff 16 f1.ip f2.ip g1.1 g2.1).1 h.1.1, h.1.2, h.2]
    · intro h
      obtain ⟨a1, a2, a3⟩ := append_inj_three _ _ _ _ _ _
        (by rw [g1.1, g2.1]) (by simp [le_bytes_length]) h
      simp only [hash_ipport_data_equal6, Bool.and_eq_true, beq_iff_eq]
      exact ⟨⟨(memcmp_eq_zero_iff 16 f1.ip f2.ip g1.1 g2.1).2 a1,
        le_bytes2_inj _ _ g1.2.1 g2.2.1 a2⟩, le_bytes1_inj _ _ g1.2.2 g2.2.2 a3⟩
  · rw [elem4_image_head, elem4_image_head]
  · rw [elem6_image_head, elem6_image_head]

theorem hash_len_layout_witness :
    (hash_ipport_create 32 (fun (s : Unit) _ => (s, 0)) () (param4 0 0 0 0 0)).2.hash_len = 7
    ∧ (hash_ipport_create 32 (fun (s : Unit) _ => (s, 0)) () (param6 0 0)).2.hash_len = 19 := by
  have h := hash_len_layout 32 (fun (s : Unit) _ => (s, 0)) ()
  exact ⟨((h (param4 0 0 0 0 0) ⟨htonl 167772161, htons 80, 6, []⟩
      ⟨htonl 167772161, htons 80, 6, [65]⟩
      ⟨(param6 0 0).min_addr.in6, htons 80, 6, []⟩
      ⟨(param6 0 0).min_addr.in6, htons 80, 6, [65]⟩ [66]
      (by decide) (by decide) (by decide) (by decide)).1 rfl).1,
    ((h (param6 0 0) ⟨htonl 167772161, htons 80, 6, []⟩
      ⟨htonl 167772161, htons 80, 6, [65]⟩
      ⟨(param6 0 0).min_addr.in6, htons 80, 6, []⟩
      ⟨(param6 0 0).min_addr.in6, htons 80, 6, [65]⟩ [66]
      (by decide) (by decide) (by decide) (by decide)).2.1 rfl).1⟩

/-- C14, as stated, fails: for the family value 0, which is neither `AF_INET` nor
`AF_INET6`, and a `hash_create` that succeeds, `hash_ipport_create` does not return
`EDPVS_INVAL`; it binds the IPv6 specialisation and returns `EDPVS_OK`. -/
theorem create_accepts_unknown_family :
    (0 : Nat) ≠ AF_INET ∧ (0 : Nat) ≠ AF_INET6
    ∧ (hash_ipport_create 32 (fun (s : Unit) _ => (s, 0)) ()
        { param4 0 0 0 0 0 with family := 0 }).1 ≠ EDPVS_INVAL
    ∧ (hash_ipport_create 32 (fun (s : Unit) _ => (s, 0)) ()
        { param4 0 0 0 0 0 with family := 0 }).1 = EDPVS_OK
    ∧ (hash_ipport_create 32 (fun (s : Unit) _ => (s, 0)) ()
        { param4 0 0 0 0 0 with family := 0 }).2.variant
          = ipset_type_variant.hash_ipport_variant6 := by
  decide

/-- C14, amended — `hash_ipport_create` validates no family: when `hash_create` succeeds it
returns `EDPVS_OK`, binds the IPv4 specialisation (record size and hashed length of
`elem4_t`) for `AF_INET`, and binds the IPv6 specialisation (those of `elem6_t`) for
`AF_INET6` and for every other family value; the table is the one `hash_create` set up. -/
theorem create_binds_by_family {σ : Type} (IPSET_MAXCOMLEN : Nat)
    (hash_create : σ → ipset_param → σ × Int) (table : σ) (param : ipset_param)
    (_hok : (hash_create table param).2 = 0) :
    (hash_ipport_create IPSET_MAXCOMLEN hash_create table param).1 = EDPVS_OK
    ∧ (hash_ipport_create IPSET_MAXCOMLEN hash_create table param).2.table
        = (hash_create table param).1
    ∧ (param.family = AF_INET →
        (hash_ipport_create IPSET_MAXCOMLEN hash_create table param).2.variant
            = ipset_type_variant.hash_ipport_variant4
        ∧ (hash_ipport_create IPSET_MAXCOMLEN hash_create table param).2.dsize
            = c_sizeof (elem4_members IPSET_MAXCOMLEN)
        ∧ (hash_ipport_create IPSET_MAXCOMLEN hash_create table param).2.hash_len = 7)
    ∧ (param.family ≠ AF_INET →
        (hash_ipport_create IPSET_MAXCOMLEN hash_create table param).2.variant
            = ipset_type_variant.hash_ipport_variant6
        ∧ (hash_ipport_create IPSET_MAXCOMLEN hash_create table param).2.dsize
            = c_sizeof (elem6_members IPSET_MAXCOMLEN)
        ∧ (hash_ipport_create IPSET_MAXCOMLEN hash_create table param).2.hash_len = 19) := by
  have l4 := (elem4_layout IPSET_MAXCOMLEN).1
  have l6 := (elem6_layout IPSET_MAXCOMLEN).1
  refine ⟨?_, ?_, ?_, ?_⟩
  · unfold hash_ipport_create
    split <;> rfl
  · unfold hash_ipport_create
    split <;> rfl
  · intro hf
    simp [hash_ipport_create, hf, l4]
  · intro hf
    simp [hash_ipport_create, hf, l6]

theorem create_binds_by_family_witness :
    (hash_ipport_create 32 (fun (s : Unit) _ => (s, 0)) () (param6 0 0)).1 = EDPVS_OK
    ∧ (hash_ipport_create 32 (fun (s : Unit) _ => (s, 0)) () (param6 0 0)).2.variant
        = ipset_type_variant.hash_ipport_variant6 := by
  have h := create_binds_by_family 32 (fun (s : Unit) _ => (s, 0)) () (param6 0 0) rfl
  exact ⟨h.1, (h.2.2.2 (by decide)).1⟩

/-- C15 — create and a resource error, evaluated for a `hash_create` that fails with an
arbitrary code `r`: the result of the call is dropped and `hash_ipport_create` returns
`EDPVS_OK` for every family. -/
theorem create_swallows_error (IPSET_MAXCOMLEN : Nat) (r : Int) (param : ipset_param) :
    ((fun (s : Unit) (_ : ipset_param) => (s, r)) () param).2 = r
    ∧ (hash_ipport_create IPSET_MAXCOMLEN (fun (s : Unit) _ => (s, r)) () param).1
        = EDPVS_OK := by
  refine ⟨rfl, ?_⟩
  unfold hash_ipport_create
  split <;> rfl

theorem and_mask_low (x m k : Nat) (hm : m < 2 ^ k) : x &&& m = (x % 2 ^ k) &&& m := by
  have h1 : m &&& (2 ^ k - 1) = m := by
    rw [Nat.and_pow_two_sub_one_eq_mod, Nat.mod_eq_of_lt hm]
  calc x &&& m = x &&& (m &&& (2 ^ k - 1)) := by rw [h1]
    _ = (x &&& (2 ^ k - 1)) &&& m := by
      rw [Nat.and_comm m, Nat.and_assoc]
    _ = (x % 2 ^ k) &&& m := by rw [Nat.and_pow_two_sub_one_eq_mod]

/-- C17 — the IPv4 hash is a deterministic in-range function of the identity fields:
`hash_ipport_hashkey4` is `((ip * 31 + port * 31 + proto) mod 2^32) AND mask`, also when
every C operation wraps on its own; it is at most `mask`, hence a bucket index below
`n` for `mask = n - 1`; it depends neither on `len` nor on the comment; and records that
`hash_ipport_data_equal4` holds equal have the same hash for every mask. -/
theorem hashkey4_in_range (e e1 e2 : elem4_t) (len len1 len2 : Int) (mask : Nat)
    (c : List Nat) (heq : hash_ipport_data_equal4 e1 e2 = true) :
    hash_ipport_hashkey4 e len mask
        = ((e.ip * 31 + e.port * 31 + e.proto) % 2 ^ 32) &&& mask
    ∧ hash_ipport_hashkey4 e len mask
        = ((((e.ip * 31) % 2 ^ 32 + e.port * 31) % 2 ^ 32 + e.proto) % 2 ^ 32) &&& mask
    ∧ hash_ipport_hashkey4 e len mask ≤ mask
    ∧ (∀ n : Nat, 0 < n → mask = n - 1 → hash_ipport_hashkey4 e len mask < n)
    ∧ hash_ipport_hashkey4 e len1 mask = hash_ipport_hashkey4 e len2 mask
    ∧ hash_ipport_hashkey4 { e with comment := c } len mask = hash_ipport_hashkey4 e len mask
    ∧ (∀ m : Nat, hash_ipport_hashkey4 e1 len1 m = hash_ipport_hashkey4 e2 len2 m) := by
  have hle : hash_ipport_hashkey4 e len mask ≤ mask := Nat.and_le_right
  refine ⟨rfl, ?_, hle, ?_, rfl, rfl, ?_⟩
  · simp only [hash_ipport_hashkey4]
    congr 1
    omega
  · intro n hn hm
    omega
  · intro m
    simp only [hash_ipport_data_equal4, Bool.and_eq_true, beq_iff_eq] at heq
    simp only [hash_ipport_hashkey4, heq.1.1, heq.1.2, heq.2]

theorem hashkey4_in_range_witness :
    hash_ipport_hashkey4 ⟨htonl 167772161, htons 80, 6, [65, 0]⟩ 7 1023 ≤ 1023
    ∧ hash_ipport_hashkey4 ⟨htonl 167772161, htons 80, 6, [65, 0]⟩ 7 1023
        = hash_ipport_hashkey4 ⟨htonl 167772161, htons 80, 6, [66, 67, 0]⟩ 7 1023 := by
  have h := hashkey4_in_range ⟨htonl 167772161, htons 80, 6, [65, 0]⟩
    ⟨htonl 167772161, htons 80, 6, [65, 0]⟩ ⟨htonl 167772161, htons 80, 6, [66, 67, 0]⟩
    7 7 7 1023 [] (by decide)
  exact ⟨h.2.2.1, h.2.2.2.2.2.2 1023⟩

theorem htonl_low_24 (a1 a2 : Nat) (h : a1 / 256 = a2 / 256) : htonl a1 % 16777216 = htonl a2 % 16777216 := by
  simp only [htonl, bswap32]
  have e1 : a1 / 65536 = a1 / 256 / 256 := by rw [Nat.div_div_eq_div_mul]
  have e2 : a1 / 16777216 = a1 / 256 / 65536 := by rw [Nat.div_div_eq_div_mul]
  have e3 : a2 / 65536 = a2 / 256 / 256 := by rw [Nat.div_div_eq_div_mul]
  have e4 : a2 / 16777216 = a2 / 256 / 65536 := by rw [Nat.div_div_eq_div_mul]
  rw [e1, e2, e3, e4, h]
  omega

theorem hashkey4_low_24 (e1 e2 : elem4_t) (len1 len2 : Int) (m : Nat) (hm : m < 16777216)
    (hip : e1.ip % 16777216 = e2.ip % 16777216) (hport : e1.port = e2.port)
    (hproto : e1.proto = e2.proto) :
    hash_ipport_hashkey4 e1 len1 m = hash_ipport_hashkey4 e2 len2 m := by
  simp only [hash_ipport_hashkey4]
  rw [and_mask_low _ m 24 (by simpa using hm),
    and_mask_low ((e2.ip * 31 + e2.port * 31 + e2.proto) % 2 ^ 32) m 24 (by simpa using hm),
    hport, hproto]
  congr 1
  simp only [Nat.reducePow]
  omega

theorem mem_expansion4 (comment : List Nat) (param : ipset_param) (lo n : Nat) (x : elem4_t)
    (h : x ∈ expansion4 comment param lo n) :
    ∃ a p, lo ≤ a ∧ a < lo + n ∧ param.min_port ≤ p
      ∧ p < param.min_port + (param.max_port + 1 - param.min_port)
      ∧ x = ⟨htonl a, htons p, param.proto, comment⟩ := by
  simp only [expansion4, List.mem_flatMap, List.mem_map, List.mem_range'_1] at h
  obtain ⟨a, ha, p, hp, rfl⟩ := h
  exact ⟨a, p, ha.1, ha.2, hp.1, hp.2, rfl⟩

/-- C20 — on a little-endian host the IPv4 hash ignores the last address octet for masks
below `2^24`: for host-order addresses `a1`, `a2` that differ only in their low 8 bits, the
elements with `ip = htonl a1` and `ip = htonl a2` and the same port and protocol have the
same `hash_ipport_hashkey4`; hence the 256 elements that `hash_ipport_adt4` applies for a
`/24` network with one port and protocol all have the hash of the network address. -/
theorem hashkey4_ignores_last_octet {σ : Type} (IPSET_MAXCOMLEN fuel : Nat)
    (opcode : ipset_op) (set : ipset σ elem4_t) (param : ipset_param)
    (a1 a2 port proto m : Nat) (c1 c2 : List Nat) (len1 len2 : Int)
    (hm : m < 2 ^ 24) (ha : a1 / 256 = a2 / 256)
    (hop : opcode = IPSET_OP_ADD ∨ opcode = IPSET_OP_DEL)
    (hfam : set.family = param.family) (hcidr : param.cidr = 24)
    (hend : (ip_set_mask_from_to (ntohl param.min_addr.in_s_addr) 24).2 < 4294967295)
    (hport : param.min_port = param.max_port) (hport_max : param.max_port < 65535)
    (hok : ∀ s e fl, (set.adtfn opcode s e fl).2 = 0)
    (hfuel : 256 < fuel) :
    hash_ipport_hashkey4 ⟨htonl a1, htons port, proto, c1⟩ len1 m
        = hash_ipport_hashkey4 ⟨htonl a2, htons port, proto, c2⟩ len2 m
    ∧ (hash_ipport_adt4 IPSET_MAXCOMLEN fuel opcode set.logged param).1 = some EDPVS_OK
    ∧ (hash_ipport_adt4 IPSET_MAXCOMLEN fuel opcode set.logged param).2.2.length = 256
    ∧ (∀ x ∈ (hash_ipport_adt4 IPSET_MAXCOMLEN fuel opcode set.logged param).2.2,
        hash_ipport_hashkey4 x.1 len1 m
          = hash_ipport_hashkey4
              ⟨htonl (ip_set_mask_from_to (ntohl param.min_addr.in_s_addr) 24).1,
                htons param.min_port, param.proto, c2⟩ len2 m) := by
  have hm' : m < 16777216 := by simpa using hm
  refine ⟨hashkey4_low_24 _ _ _ _ m hm' (htonl_low_24 a1 a2 ha) rfl rfl, ?_⟩
  have hne : opcode ≠ IPSET_OP_TEST := by rcases hop with h | h <;> simp [h]
  have hr : addr_range4 param = ip_set_mask_from_to (ntohl param.min_addr.in_s_addr) 24 := by
    simp [addr_range4, hcidr]
  have hrun := adt4_eq_applyAll IPSET_MAXCOMLEN fuel opcode set.logged param hne hfam
    (by omega) (by omega) (Or.inl hport_max) (by rw [hr]; exact hend) (by omega)
    (by rw [hr, mask_from_to_snd]; simpa using hfuel)
  have e1 : set.logged.adtfn opcode = logged (set.adtfn opcode) := rfl
  have e2 : set.logged.table = (set.table, []) := rfl
  have e3 : set.logged.comment = set.comment := rfl
  rw [hr, mask_from_to_snd, e1, e2, e3, applyAll_logged_ok _ _ hok] at hrun
  rw [hrun]
  simp only [finish, List.nil_append]
  refine ⟨trivial, ?_, ?_⟩
  · have hk : param.max_port + 1 - param.min_port = 1 := by omega
    simp only [List.length_map, expansion4, hk]
    rw [length_grid]
    decide
  · intro x hx
    obtain ⟨y, hy, rfl⟩ := List.mem_map.1 hx
    obtain ⟨a, p, h1, h2, h3, h4, rfl⟩ := mem_expansion4 _ _ _ _ _ hy
    have hp : p = param.min_port := by omega
    subst hp
    refine hashkey4_low_24 _ _ _ _ m hm' (htonl_low_24 _ _ ?_) rfl rfl
    simp only [ip_set_mask_from_to] at h1 h2 ⊢
    simp only [Nat.reduceSub, Nat.reducePow] at h1 h2 ⊢
    omega

theorem hashkey4_ignores_last_octet_witness :
    hash_ipport_hashkey4 ⟨htonl 167772161, htons 80, 6, []⟩ 7 65535
        = hash_ipport_hashkey4 ⟨htonl 167772415, htons 80, 6, []⟩ 7 65535
    ∧ (hash_ipport_adt4 32 300 IPSET_OP_ADD set4_accept.logged
        (param4 167772170 0 80 80 24)).2.2.length = 256 := by
  have h := hashkey4_ignores_last_octet 32 300 IPSET_OP_ADD set4_accept
    (param4 167772170 0 80 80 24) 167772161 167772415 80 6 65535 [] [] 7 7
    (by decide) (by decide) (Or.inl rfl) rfl rfl (by decide) rfl (by decide)
    (fun _ _ _ => rfl) (by decide)
  exact ⟨h.1, h.2.2.1⟩

theorem take_takeWhile_eq (src : List Nat) (k : Nat) :
    src.take (min (src.takeWhile fun c => c != 0).length k)
      = (src.takeWhile fun c => c != 0).take k := by
  have hsplit := List.takeWhile_append_dropWhile (fun c => c != 0) src
  generalize src.takeWhile (fun c => c != 0) = tw at hsplit
  generalize src.dropWhile (fun c => c != 0) = dw at hsplit
  subst hsplit
  rw [List.take_append_of_le_length (Nat.min_le_left _ _)]
  rcases Nat.le_total tw.length k with h | h
  · rw [Nat.min_eq_left h, List.take_of_length_le (Nat.le_refl _), List.take_of_length_le h]
  · rw [Nat.min_eq_right h]

/-- The comment field after `rte_strlcpy` into a zeroed field: the text of `src` up to its
first NUL, cut to `size - 1` bytes, followed by zeros up to `size` bytes. -/
theorem rte_strlcpy_zeroed (src : List Nat) (size : Nat) :
    rte_strlcpy (List.replicate size 0) src size
      = ((src.takeWhile fun c => c != 0).take (size - 1))
          ++ List.replicate
              (size - ((src.takeWhile fun c => c != 0).take (size - 1)).length) 0 := by
  unfold rte_strlcpy
  by_cases h0 : size = 0
  · subst h0
    simp
  · simp only [h0, if_false, strlen]
    rw [take_takeWhile_eq]
    congr 1
    rw [List.drop_replicate, List.length_take]
    have hlt : min (size - 1) (src.takeWhile fun c => c != 0).length < size := by omega
    rw [Nat.min_comm]
    generalize min (size - 1) (src.takeWhile fun c => c != 0).length = n at hlt
    obtain ⟨k, rfl⟩ : ∃ k, size = n + 1 + k := ⟨size - (n + 1), by omega⟩
    rw [show n + 1 + k - (n + 1) = k by omega, show n + 1 + k - n = k + 1 by omega]
    rfl

theorem port_loop_attach {σ ε : Type} (f : ipset_adtfn σ ε) (setport : ε → Nat → ε)
    (min_port max_port flag : Nat) (e e0 : ε) (att : ε → ε)
    (hatt : ∀ p, att (setport e0 p) = setport e p) :
    ∀ (fuel port : Nat) (s : σ) (log : List (ε × Nat)),
      port_loop (logged f) setport min_port max_port flag e fuel port
          (s, log.map fun c => (att c.1, c.2))
        = map_log att
            (port_loop (logged fun s x fl => f s (att x) fl) setport min_port max_port flag e0
              fuel port (s, log)) := by
  intro fuel
  induction fuel with
  | zero => intro port s log; rfl
  | succ k ih =>
    intro port s log
    simp only [port_loop, logged, hatt]
    split
    · split
      · simp [map_log, hatt]
      · have := ih ((port + 1) % 65536) (f s (setport e (htons port)) flag).1
          (log ++ [(setport e0 (htons port), flag)])
        simp only [List.map_append, List.map_cons, List.map_nil, hatt] at this
        exact this
    · rfl

theorem ip_loop4_attach {σ : Type} (f : ipset_adtfn σ elem4_t) (param : ipset_param)
    (ip_to fuel : Nat) (c : List Nat) :
    ∀ (n ip : Nat) (e e0 : elem4_t) (s : σ) (log : List (elem4_t × Nat)), e.comment = c →
      ip_loop4 (logged f) param ip_to e fuel n ip (s, log.map fun x => (attach4 c x.1, x.2))
        = map_log (attach4 c)
            (ip_loop4 (logged fun s x fl => f s (attach4 c x) fl) param ip_to e0
              fuel n ip (s, log)) := by
  intro n
  induction n with
  | zero => intro ip e e0 s log _; rfl
  | succ k ih =>
    intro ip e e0 s log hc
    simp only [ip_loop4]
    split
    · rw [port_loop_attach f (fun (x : elem4_t) p => { x with port := p }) param.min_port
        param.max_port param.flag
        ⟨htonl ip, e.port, param.proto, e.comment⟩
        ⟨htonl ip, e0.port, param.proto, e0.comment⟩
        (attach4 c) (by intro p; simp [attach4, hc])]
      generalize port_loop (logged fun s x fl => f s (attach4 c x) fl)
        (fun (x : elem4_t) p => { x with port := p }) param.min_port param.max_port param.flag
        ⟨htonl ip, e0.port, param.proto, e0.comment⟩
        fuel param.min_port (s, log) = res
      rcases res with ⟨fl, s1, log1⟩
      cases fl with
      | next => exact ih _ _ _ _ _ hc
      | ret r => rfl
      | spin => rfl
    · rfl

theorem finish_map_log {σ ε : Type} (att : ε → ε) (r : Flow × σ × List (ε × Nat)) :
    finish (map_log att r) = map_log att (finish r) := by
  rcases r with ⟨fl, s, log⟩
  cases fl <;> rfl

theorem elem_comment_not_add (IPSET_MAXCOMLEN : Nat) (enabled : Bool) (opcode : ipset_op)
    (param : ipset_param) (h : ¬ (enabled = true ∧ opcode = IPSET_OP_ADD)) :
    elem_comment IPSET_MAXCOMLEN enabled opcode param = List.replicate IPSET_MAXCOMLEN 0 := by
  simp only [elem_comment, h, if_false]

theorem adt4_attach {σ : Type} (IPSET_MAXCOMLEN fuel : Nat) (opcode : ipset_op)
    (set : ipset σ elem4_t) (param : ipset_param) (hfam : set.family = param.family) :
    hash_ipport_adt4 IPSET_MAXCOMLEN fuel opcode set.logged param
      = map_log (attach4 (elem_comment IPSET_MAXCOMLEN set.comment opcode param))
          (hash_ipport_adt4 IPSET_MAXCOMLEN fuel opcode
            (set.uncommented
              (attach4 (elem_comment IPSET_MAXCOMLEN set.comment opcode param))).logged
            param) := by
  by_cases hop : opcode = IPSET_OP_TEST
  · subst hop
    have hz := elem_comment_not_add IPSET_MAXCOMLEN set.comment IPSET_OP_TEST param
      (by simp)
    have e4 : set.logged.family = param.family := hfam
    have e5 : (set.uncommented (attach4 (List.replicate IPSET_MAXCOMLEN 0))).logged.family
        = param.family := hfam
    simp only [hz, hash_ipport_adt4, e4, e5, ne_eq, not_true_eq_false, if_false, if_true]
    rfl
  · rw [adt4_eq_ip_loop4 _ _ _ set.logged _ hop hfam,
      adt4_eq_ip_loop4 _ _ _ (set.uncommented _).logged _ hop hfam, ← finish_map_log]
    congr 1
    exact ip_loop4_attach (set.adtfn opcode) param _ fuel
      (elem_comment IPSET_MAXCOMLEN set.comment opcode param) fuel _ _ _ set.table [] rfl

theorem adt6_attach {σ : Type} (IPSET_MAXCOMLEN fuel : Nat) (opcode : ipset_op)
    (set : ipset σ elem6_t) (param : ipset_param) (hfam : set.family = param.family) :
    hash_ipport_adt6 IPSET_MAXCOMLEN fuel opcode set.logged param
      = map_log (attach6 (elem_comment IPSET_MAXCOMLEN set.comment opcode param))
          (hash_ipport_adt6 IPSET_MAXCOMLEN fuel opcode
            (set.uncommented
              (attach6 (elem_comment IPSET_MAXCOMLEN set.comment opcode param))).logged
            param) := by
  by_cases hop : opcode = IPSET_OP_TEST
  · subst hop
    have hz := elem_comment_not_add IPSET_MAXCOMLEN set.comment IPSET_OP_TEST param
      (by simp)
    have e4 : set.logged.family = param.family := hfam
    have e5 : (set.uncommented (attach6 (List.replicate IPSET_MAXCOMLEN 0))).logged.family
        = param.family := hfam
    simp only [hz, hash_ipport_adt6, e4, e5, ne_eq, not_true_eq_false, if_false, if_true]
    rfl
  · rw [adt6_eq_port_loop _ _ _ set.logged _ hop hfam,
      adt6_eq_port_loop _ _ _ (set.uncommented _).logged _ hop hfam, ← finish_map_log]
    congr 1
    exact port_loop_attach (set.adtfn opcode) (fun (x : elem6_t) p => { x with port := p })
      param.min_port param.max_port param.flag _ _
      (attach6 (elem_comment IPSET_MAXCOMLEN set.comment opcode param))
      (by intro p; rfl) fuel param.min_port set.table []

theorem elem_comment_eq (IPSET_MAXCOMLEN : Nat) (enabled : Bool) (opcode : ipset_op)
    (param : ipset_param) :
    elem_comment IPSET_MAXCOMLEN enabled opcode param
      = if enabled = true ∧ opcode = IPSET_OP_ADD then
          ((param.comment.takeWhile fun c => c != 0).take (IPSET_MAXCOMLEN - 1))
            ++ List.replicate (IPSET_MAXCOMLEN
                - ((param.comment.takeWhile fun c => c != 0).take
                    (IPSET_MAXCOMLEN - 1)).length) 0
        else List.replicate IPSET_MAXCOMLEN 0 := by
  unfold elem_comment
  split
  · exact rte_strlcpy_zeroed _ _
  · rfl

theorem elem_comment_length (IPSET_MAXCOMLEN : Nat) (enabled : Bool) (opcode : ipset_op)
    (param : ipset_param) :
    (elem_comment IPSET_MAXCOMLEN enabled opcode param).length = IPSET_MAXCOMLEN := by
  rw [elem_comment_eq]
  split
  · simp only [List.length_append, List.length_replicate, List.length_take]
    omega
  · simp

theorem map_log_comment4 {σ ρ : Type} (c : List Nat) (r : ρ × σ × List (elem4_t × Nat)) :
    (∀ x ∈ (map_log (attach4 c) r).2.2, x.1.comment = c)
    ∧ (map_log (attach4 c) r).1 = r.1
    ∧ (map_log (attach4 c) r).2.1 = r.2.1
    ∧ (map_log (attach4 c) r).2.2.map (fun x => (x.1.ip, x.1.port, x.1.proto, x.2))
        = r.2.2.map (fun x => (x.1.ip, x.1.port, x.1.proto, x.2)) := by
  refine ⟨?_, rfl, rfl, ?_⟩
  · intro x hx
    simp only [map_log, List.mem_map] at hx
    obtain ⟨y, _, rfl⟩ := hx
    rfl
  · simp [map_log, attach4, Function.comp_def]

theorem map_log_comment6 {σ ρ : Type} (c : List Nat) (r : ρ × σ × List (elem6_t × Nat)) :
    (∀ x ∈ (map_log (attach6 c) r).2.2, x.1.comment = c)
    ∧ (map_log (attach6 c) r).1 = r.1
    ∧ (map_log (attach6 c) r).2.1 = r.2.1
    ∧ (map_log (attach6 c) r).2.2.map (fun x => (x.1.ip, x.1.port, x.1.proto, x.2))
        = r.2.2.map (fun x => (x.1.ip, x.1.port, x.1.proto, x.2)) := by
  refine ⟨?_, rfl, rfl, ?_⟩
  · intro x hx
    simp only [map_log, List.mem_map] at hx
    obtain ⟨y, _, rfl⟩ := hx
    rfl
  · simp [map_log, attach6, Function.comp_def]

theorem elem_comment_expected (IPSET_MAXCOMLEN : Nat) (enabled : Bool) (opcode : ipset_op)
    (param : ipset_param) :
    elem_comment IPSET_MAXCOMLEN enabled opcode param
      = expected_comment IPSET_MAXCOMLEN enabled opcode param.comment :=
  elem_comment_eq IPSET_MAXCOMLEN enabled opcode param

/-- C18 — the comment is attached only on ADD with comments enabled. With matching family:
TEST hands over exactly one element, with an all-zero comment; ADD and DEL on a non-empty
range hand over at least the first element of the range, and, when the handler accepts
everything and the range does not reach the top of the address or port space, exactly the
elements of the range in order; every element handed over has a comment field of
`IPSET_MAXCOMLEN` bytes which, for ADD on a set with comments, is the text of
`param.comment` cut to `IPSET_MAXCOMLEN - 1` bytes and followed by the NUL terminator and
zeros, and which is all zero for DEL, for TEST and for a set without comments. The result,
the table and the `(ip, port, proto, flag)` of the calls are those of the run without
comments in which the handler is shown the same comment. -/
theorem comment_only_on_add {σ τ : Type} (IPSET_MAXCOMLEN fuel : Nat) (opcode : ipset_op)
    (set4 : ipset σ elem4_t) (set6 : ipset τ elem6_t) (p4 p6 : ipset_param)
    (hfam4 : set4.family = p4.family) (hfam6 : set6.family = p6.family) :
    (∀ x ∈ (hash_ipport_adt4 IPSET_MAXCOMLEN fuel opcode set4.logged p4).2.2,
        x.1.comment.length = IPSET_MAXCOMLEN
        ∧ x.1.comment = expected_comment IPSET_MAXCOMLEN set4.comment opcode p4.comment)
    ∧ (∀ x ∈ (hash_ipport_adt6 IPSET_MAXCOMLEN fuel opcode set6.logged p6).2.2,
        x.1.comment.length = IPSET_MAXCOMLEN
        ∧ x.1.comment = expected_comment IPSET_MAXCOMLEN set6.comment opcode p6.comment)
    ∧ (opcode = IPSET_OP_TEST →
        (hash_ipport_adt4 IPSET_MAXCOMLEN fuel opcode set4.logged p4).2.2
            = [(⟨p4.min_addr.in_s_addr, htons p4.min_port, p4.proto,
                  List.replicate IPSET_MAXCOMLEN 0⟩, 0)]
        ∧ (hash_ipport_adt6 IPSET_MAXCOMLEN fuel opcode set6.logged p6).2.2
            = [(⟨p6.min_addr.in6, htons p6.min_port, p6.proto,
                  List.replicate IPSET_MAXCOMLEN 0⟩, 0)])
    ∧ (opcode ≠ IPSET_OP_TEST → 0 < fuel → p4.min_port ≤ p4.max_port →
        (addr_range4 p4).1 ≤ (addr_range4 p4).2 →
        (hash_ipport_adt4 IPSET_MAXCOMLEN fuel opcode set4.logged p4).2.2.head?
            = some (⟨htonl (addr_range4 p4).1, htons p4.min_port, p4.proto,
                  expected_comment IPSET_MAXCOMLEN set4.comment opcode p4.comment⟩, p4.flag))
    ∧ (opcode ≠ IPSET_OP_TEST → 0 < fuel → p6.min_port ≤ p6.max_port →
        (hash_ipport_adt6 IPSET_MAXCOMLEN fuel opcode set6.logged p6).2.2.head?
            = some (⟨p6.min_addr.in6, htons p6.min_port, p6.proto,
                  expected_comment IPSET_MAXCOMLEN set6.comment opcode p6.comment⟩, p6.flag))
    ∧ (opcode ≠ IPSET_OP_TEST → (∀ s e fl, (set4.adtfn opcode s e fl).2 = 0) →
        p4.min_port ≤ p4.max_port → p4.max_port < 65535 →
        (addr_range4 p4).2 < 4294967295 →
        p4.max_port - p4.min_port + 1 < fuel →
        (addr_range4 p4).2 + 1 - (addr_range4 p4).1 < fuel →
        (hash_ipport_adt4 IPSET_MAXCOMLEN fuel opcode set4.logged p4).1 = some EDPVS_OK
        ∧ (hash_ipport_adt4 IPSET_MAXCOMLEN fuel opcode set4.logged p4).2.2
            = (List.range' (addr_range4 p4).1
                ((addr_range4 p4).2 + 1 - (addr_range4 p4).1)).flatMap
              (fun a => (List.range' p4.min_port (p4.max_port - p4.min_port + 1)).map
                fun p => (⟨htonl a, htons p, p4.proto,
                  expected_comment IPSET_MAXCOMLEN set4.comment opcode p4.comment⟩, p4.flag)))
    ∧ (opcode ≠ IPSET_OP_TEST → (∀ s e fl, (set6.adtfn opcode s e fl).2 = 0) →
        p6.min_port ≤ p6.max_port → p6.max_port < 65535 →
        p6.max_port - p6.min_port + 1 < fuel →
        (hash_ipport_adt6 IPSET_MAXCOMLEN fuel opcode set6.logged p6).1 = some EDPVS_OK
        ∧ (hash_ipport_adt6 IPSET_MAXCOMLEN fuel opcode set6.logged p6).2.2
            = (List.range' p6.min_port (p6.max_port - p6.min_port + 1)).map
                fun p => (⟨p6.min_addr.in6, htons p, p6.proto,
                  expected_comment IPSET_MAXCOMLEN set6.comment opcode p6.comment⟩, p6.flag))
    ∧ ((hash_ipport_adt4 IPSET_MAXCOMLEN fuel opcode set4.logged p4).1
          = (hash_ipport_adt4 IPSET_MAXCOMLEN fuel opcode
              (set4.uncommented
                (attach4 (elem_comment IPSET_MAXCOMLEN set4.comment opcode p4))).logged p4).1
        ∧ (hash_ipport_adt4 IPSET_MAXCOMLEN fuel opcode set4.logged p4).2.1
          = (hash_ipport_adt4 IPSET_MAXCOMLEN fuel opcode
              (set4.uncommented
                (attach4 (elem_comment IPSET_MAXCOMLEN set4.comment opcode p4))).logged p4).2.1
        ∧ (hash_ipport_adt4 IPSET_MAXCOMLEN fuel opcode set4.logged p4).2.2.map
              (fun x => (x.1.ip, x.1.port, x.1.proto, x.2))
          = (hash_ipport_adt4 IPSET_MAXCOMLEN fuel opcode
              (set4.uncommented
                (attach4 (elem_comment IPSET_MAXCOMLEN set4.comment opcode p4))).logged
                  p4).2.2.map
              (fun x => (x.1.ip, x.1.port, x.1.proto, x.2)))
    ∧ ((hash_ipport_adt6 IPSET_MAXCOMLEN fuel opcode set6.logged p6).1
          = (hash_ipport_adt6 IPSET_MAXCOMLEN fuel opcode
              (set6.uncommented
                (attach6 (elem_comment IPSET_MAXCOMLEN set6.comment opcode p6))).logged p6).1
        ∧ (hash_ipport_adt6 IPSET_MAXCOMLEN fuel opcode set6.logged p6).2.1
          = (hash_ipport_adt6 IPSET_MAXCOMLEN fuel opcode
              (set6.uncommented
                (attach6 (elem_comment IPSET_MAXCOMLEN set6.comment opcode p6))).logged p6).2.1
        ∧ (hash_ipport_adt6 IPSET_MAXCOMLEN fuel opcode set6.logged p6).2.2.map
              (fun x => (x.1.ip, x.1.port, x.1.proto, x.2))
          = (hash_ipport_adt6 IPSET_MAXCOMLEN fuel opcode
              (set6.uncommented
                (attach6 (elem_comment IPSET_MAXCOMLEN set6.comment opcode p6))).logged
                  p6).2.2.map
              (fun x => (x.1.ip, x.1.port, x.1.proto, x.2))) := by
  have a4 := adt4_attach IPSET_MAXCOMLEN fuel opcode set4 p4 hfam4
  have a6 := adt6_attach IPSET_MAXCOMLEN fuel opcode set6 p6 hfam6
  have m4 := map_log_comment4 (elem_comment IPSET_MAXCOMLEN set4.comment opcode p4)
    (hash_ipport_adt4 IPSET_MAXCOMLEN fuel opcode
      (set4.uncommented
        (attach4 (elem_comment IPSET_MAXCOMLEN set4.comment opcode p4))).logged p4)
  have m6 := map_log_comment6 (elem_comment IPSET_MAXCOMLEN set6.comment opcode p6)
    (hash_ipport_adt6 IPSET_MAXCOMLEN fuel opcode
      (set6.uncommented
        (attach6 (elem_comment IPSET_MAXCOMLEN set6.comment opcode p6))).logged p6)
  rw [← a4] at m4
  rw [← a6] at m6
  have c4 := elem_comment_expected IPSET_MAXCOMLEN set4.comment opcode p4
  have c6 := elem_comment_expected IPSET_MAXCOMLEN set6.comment opcode p6
  have e41 : set4.logged.adtfn opcode = logged (set4.adtfn opcode) := rfl
  have e42 : set4.logged.table = (set4.table, []) := rfl
  have e43 : set4.logged.comment = set4.comment := rfl
  have e61 : set6.logged.adtfn opcode = logged (set6.adtfn opcode) := rfl
  have e62 : set6.logged.table = (set6.table, []) := rfl
  have e63 : set6.logged.comment = set6.comment := rfl
  refine ⟨?_, ?_, ?_, ?_, ?_, ?_, ?_, m4.2, m6.2⟩
  · intro x hx
    rw [m4.1 x hx]
    exact ⟨elem_comment_length _ _ _ _, c4⟩
  · intro x hx
    rw [m6.1 x hx]
    exact ⟨elem_comment_length _ _ _ _, c6⟩
  · intro hop
    subst hop
    have f4 : set4.logged.family = p4.family := hfam4
    have f6 : set6.logged.family = p6.family := hfam6
    constructor
    · simp only [hash_ipport_adt4, f4, ne_eq, not_true_eq_false, if_false, if_true]
      rfl
    · simp only [hash_ipport_adt6, f6, ne_eq, not_true_eq_false, if_false, if_true]
      rfl
  · intro hop hfuel hport haddr
    obtain ⟨k, rfl⟩ : ∃ k, fuel = k + 1 := ⟨fuel - 1, by omega⟩
    rw [adt4_eq_ip_loop4 _ _ _ set4.logged _ hop hfam4, finish_snd, e41, e42, e43, ← c4]
    exact head_of_log_start _ _
      (ip_loop4_first_call (set4.adtfn opcode) p4 (addr_range4 p4).2
        ⟨0, 0, 0, elem_comment IPSET_MAXCOMLEN set4.comment opcode p4⟩ hport k k
        (addr_range4 p4).1 haddr set4.table)
  · intro hop hfuel hport
    obtain ⟨k, rfl⟩ : ∃ k, fuel = k + 1 := ⟨fuel - 1, by omega⟩
    rw [adt6_eq_port_loop _ _ _ set6.logged _ hop hfam6, finish_snd, e61, e62, e63, ← c6]
    exact head_of_log_start _ _
      (port_loop_first_call (set6.adtfn opcode) (fun (x : elem6_t) p => { x with port := p })
        p6.min_port p6.max_port p6.flag
        ⟨p6.min_addr.in6, 0, p6.proto, elem_comment IPSET_MAXCOMLEN set6.comment opcode p6⟩
        hport k set6.table)
  · intro hop hok hport hmax hto hfuel hbudget
    have hk : p4.max_port + 1 - p4.min_port = p4.max_port - p4.min_port + 1 := by omega
    have hrun := adt4_eq_applyAll IPSET_MAXCOMLEN fuel opcode set4.logged p4 hop hfam4
      (by omega) (by omega) (Or.inl hmax) hto (by omega) hbudget
    rw [e41, e42, e43, applyAll_logged_ok _ _ hok] at hrun
    rw [hrun]
    refine ⟨rfl, ?_⟩
    simp [finish, expansion4, List.map_flatMap, hk, c4, Function.comp_def]
  · intro hop hok hport hmax hfuel
    have hk : p6.max_port + 1 - p6.min_port = p6.max_port - p6.min_port + 1 := by omega
    have hrun := adt6_eq_applyAll IPSET_MAXCOMLEN fuel opcode set6.logged p6 hop hfam6
      (by omega) (by omega) (Or.inl hmax) (by omega)
    rw [e61, e62, e63, applyAll_logged_ok _ _ hok] at hrun
    rw [hrun]
    refine ⟨rfl, ?_⟩
    simp [finish, hk, c6, Function.comp_def]

theorem comment_only_on_add_witness :
    (hash_ipport_adt4 4 3 IPSET_OP_ADD set4_commented.logged
        (with_comment (param4 167772161 167772161 80 81 0) [72, 101, 108, 108])).2.2
      = [(⟨htonl 167772161, htons 80, 6, [72, 101, 108, 0]⟩, 0),
         (⟨htonl 167772161, htons 81, 6, [72, 101, 108, 0]⟩, 0)]
    ∧ (hash_ipport_adt4 4 3 IPSET_OP_ADD set4_commented.logged
        (with_comment (param4 167772161 167772161 80 81 0) [72, 105, 0, 0])).2.2
      = [(⟨htonl 167772161, htons 80, 6, [72, 105, 0, 0]⟩, 0),
         (⟨htonl 167772161, htons 81, 6, [72, 105, 0, 0]⟩, 0)]
    ∧ (hash_ipport_adt4 4 3 IPSET_OP_DEL set4_commented.logged
        (with_comment (param4 167772161 167772161 80 81 0) [72, 105, 0, 0])).2.2
      = [(⟨htonl 167772161, htons 80, 6, [0, 0, 0, 0]⟩, 0),
         (⟨htonl 167772161, htons 81, 6, [0, 0, 0, 0]⟩, 0)]
    ∧ (hash_ipport_adt4 4 3 IPSET_OP_ADD set4_accept.logged
        (with_comment (param4 167772161 167772161 80 81 0) [72, 105, 0, 0])).2.2
      = [(⟨htonl 167772161, htons 80, 6, [0, 0, 0, 0]⟩, 0),
         (⟨htonl 167772161, htons 81, 6, [0, 0, 0, 0]⟩, 0)] :=
  ⟨((comment_only_on_add 4 3 IPSET_OP_ADD set4_commented set6_accept
      (with_comment (param4 167772161 167772161 80 81 0) [72, 101, 108, 108]) (param6 80 81)
      rfl rfl).2.2.2.2.2.1 (by decide) (fun _ _ _ => rfl) (by decide) (by decide) (by decide)
      (by decide) (by decide)).2,
   ((comment_only_on_add 4 3 IPSET_OP_ADD set4_commented set6_accept
      (with_comment (param4 167772161 167772161 80 81 0) [72, 105, 0, 0]) (param6 80 81)
      rfl rfl).2.2.2.2.2.1 (by decide) (fun _ _ _ => rfl) (by decide) (by decide) (by decide)
      (by decide) (by decide)).2,
   ((comment_only_on_add 4 3 IPSET_OP_DEL set4_commented set6_accept
      (with_comment (param4 167772161 167772161 80 81 0) [72, 105, 0, 0]) (param6 80 81)
      rfl rfl).2.2.2.2.2.1 (by decide) (fun _ _ _ => rfl) (by decide) (by decide) (by decide)
      (by decide) (by decide)).2,
   ((comment_only_on_add 4 3 IPSET_OP_ADD set4_accept set6_accept
      (with_comment (param4 167772161 167772161 80 81 0) [72, 105, 0, 0]) (param6 80 81)
      rfl rfl).2.2.2.2.2.1 (by decide) (fun _ _ _ => rfl) (by decide) (by decide) (by decide)
      (by decide) (by decide)).2⟩

theorem port_loop_sim {σ ε ε' : Type} (f : ipset_adtfn σ ε) (f' : ipset_adtfn σ ε')
    (setport : ε → Nat → ε) (setport' : ε' → Nat → ε') (min_port max_port flag : Nat)
    (e : ε) (e' : ε') (h : ∀ s p, f s (setport e p) flag = f' s (setport' e' p) flag) :
    ∀ (fuel port : Nat) (s : σ),
      port_loop f setport min_port max_port flag e fuel port s
        = port_loop f' setport' min_port max_port flag e' fuel port s := by
  intro fuel
  induction fuel with
  | zero => intro port s; rfl
  | succ k ih =>
    intro port s
    simp only [port_loop, h, ih]

/-- IPv6 iterates the port range as IPv4 does for one address below 255.255.255.255: for
ADD or DEL, handlers whose behaviour is the same function `h` of table, port, protocol and
flag word, equal tables, the same ports, protocol and flag, `min_addr = max_addr` and no
CIDR, `hash_ipport_adt4` and `hash_ipport_adt6` yield the same result and the same table
(which may hold the log of the calls) for every iteration budget of at least 2. -/
theorem adt6_matches_adt4_single {σ : Type} (IPSET_MAXCOMLEN fuel : Nat) (opcode : ipset_op)
    (set4 : ipset σ elem4_t) (set6 : ipset σ elem6_t) (h : σ → Nat → Nat → Nat → σ × Int)
    (p4 p6 : ipset_param)
    (hop : opcode ≠ IPSET_OP_TEST)
    (hf4 : set4.family = p4.family) (hf6 : set6.family = p6.family)
    (h4 : set4.adtfn opcode = by_port4 h) (h6 : set6.adtfn opcode = by_port6 h)
    (htab : set4.table = set6.table)
    (hsingle : p4.max_addr.in_s_addr = p4.min_addr.in_s_addr) (hcidr : p4.cidr = 0)
    (htop : ntohl p4.min_addr.in_s_addr < 4294967295)
    (hmin : p6.min_port = p4.min_port) (hmax : p6.max_port = p4.max_port)
    (hproto : p6.proto = p4.proto) (hflag : p6.flag = p4.flag)
    (hfuel : 2 ≤ fuel) :
    hash_ipport_adt4 IPSET_MAXCOMLEN fuel opcode set4 p4
      = hash_ipport_adt6 IPSET_MAXCOMLEN fuel opcode set6 p6 := by
  obtain ⟨k, rfl⟩ : ∃ k, fuel = k + 2 := ⟨fuel - 2, by omega⟩
  have hr : addr_range4 p4
      = (ntohl p4.min_addr.in_s_addr, ntohl p4.min_addr.in_s_addr) := by
    simp [addr_range4, hcidr, hsingle]
  rw [adt4_eq_ip_loop4 _ _ _ _ _ hop hf4, adt6_eq_port_loop _ _ _ _ _ hop hf6, hr, h4, h6,
    htab, hmin, hmax, hflag]
  congr 1
  simp only [ip_loop4, Nat.le_refl, if_true]
  rw [port_loop_sim (by_port4 h) (by_port6 h) (fun (x : elem4_t) p => { x with port := p })
    (fun (x : elem6_t) p => { x with port := p }) p4.min_port p4.max_port p4.flag
    ⟨htonl (ntohl p4.min_addr.in_s_addr), 0, p4.proto,
      elem_comment IPSET_MAXCOMLEN set4.comment opcode p4⟩
    ⟨p6.min_addr.in6, 0, p6.proto, elem_comment IPSET_MAXCOMLEN set6.comment opcode p6⟩
    (by intro s p; simp [by_port4, by_port6, hproto])]
  generalize port_loop (by_port6 h) (fun (x : elem6_t) p => { x with port := p }) p4.min_port
    p4.max_port p4.flag
    ⟨p6.min_addr.in6, 0, p6.proto, elem_comment IPSET_MAXCOMLEN set6.comment opcode p6⟩
    (k + 2) p4.min_port set6.table = res
  rcases res with ⟨fl, s1⟩
  cases fl with
  | next =>
    have hgt : ¬ (ntohl p4.min_addr.in_s_addr + 1) % 4294967296
        ≤ ntohl p4.min_addr.in_s_addr := by omega
    simp only [hgt, if_false]
  | ret r => rfl
  | spin => rfl

/-- C19 — IPv6 against IPv4 restricted to one address, evaluated at the address
255.255.255.255 with ports 80..80 and a counting handler that always returns 0:
`hash_ipport_adt6` returns `EDPVS_OK` after the single call for port 80, whereas
`hash_ipport_adt4` with `min_addr = max_addr = 255.255.255.255` has not returned within
any iteration budget and hands the same `(port, proto, flag)` triple to the handler again
and again. -/
theorem adt6_differs_at_top_address (IPSET_MAXCOMLEN k : Nat) :
    hash_ipport_adt6 IPSET_MAXCOMLEN (k + 2) IPSET_OP_ADD (set6_counting fun _ _ => 0)
        (param6 80 80) = (some EDPVS_OK, (1, [(htons 80, 6, 0)]))
    ∧ (hash_ipport_adt4 IPSET_MAXCOMLEN (k + 2) IPSET_OP_ADD (set4_counting fun _ _ => 0)
        (param4 4294967295 4294967295 80 80 0)).1 = none
    ∧ (hash_ipport_adt4 IPSET_MAXCOMLEN 3 IPSET_OP_ADD (set4_counting fun _ _ => 0)
        (param4 4294967295 4294967295 80 80 0)).2
          = (3, [(htons 80, 6, 0), (htons 80, 6, 0), (htons 80, 6, 0)]) := by
  have r1 : addr_range4 (param4 4294967295 4294967295 80 80 0) = (4294967295, 4294967295) := by
    decide
  refine ⟨?_, ?_, ?_⟩
  · rw [adt6_eq_applyAll _ _ _ _ _ (by decide) rfl (by decide) (by decide)
      (Or.inl (by decide)) (by simp [param6])]
    simp [param6, applyAll, finish, set6_counting, by_port6, counting]
  · rw [adt4_eq_ip_loop4 _ _ _ _ _ (by decide) rfl, r1]
    exact finish_fst_of_spin _
      (ip_loop4_full_range_spin _ _ _ (fun _ _ _ => rfl) _ _ _ _ (by decide))
  · rw [adt4_eq_ip_loop4 _ _ _ _ _ (by decide) rfl, finish_snd]
    simp [ip_loop4, port_loop, addr_range4, param4, set4_counting, by_port4, counting,
      ntohl_htonl]

/-- The IPv6 range operation never reads `range.max_addr` or `cidr`. -/
theorem adt6_ignores_max_addr_cidr {σ : Type} (IPSET_MAXCOMLEN fuel : Nat) (opcode : ipset_op)
    (set : ipset σ elem6_t) (param : ipset_param) (ma : inet_addr) (c : Nat) :
    hash_ipport_adt6 IPSET_MAXCOMLEN fuel opcode set { param with max_addr := ma, cidr := c }
      = hash_ipport_adt6 IPSET_MAXCOMLEN fuel opcode set param := by
  by_cases hfam : set.family = param.family
  · by_cases hop : opcode = IPSET_OP_TEST
    · subst hop
      simp only [hash_ipport_adt6, hfam, ne_eq, not_true_eq_false, if_false, if_true]
    · rw [adt6_eq_port_loop _ _ _ set param hop hfam,
        adt6_eq_port_loop _ _ _ set { param with max_addr := ma, cidr := c } hop hfam]
      rfl
  · simp only [hash_ipport_adt6, ne_eq, hfam, not_false_eq_true, if_true]

end Ipset
